import Mathlib

/-!
Shallow embedding of the telegram-invoice-bot source (`bot.py`) and proofs
about it.  The embedding models:

* Python string primitives used by the source (`strip`, `replace`, substring
  test, `float(...)` literal parsing, `str(...)` of a float);
* `datetime.strptime` for the two formats `%d/%m/%Y` and `%Y-%m-%d` and
  `datetime.strftime("%Y-%m-%d")` (year rendered zero-padded to four digits);
* Python floats as exact rationals (`ℚ`): every numeric literal the program
  manipulates is a decimal fraction, which `ℚ` represents exactly; `str` of a
  float is modelled as the exact decimal expansion, which re-parses to the
  same rational, matching CPython's round-tripping `repr`;
* the functions `clean_invoice_data`, `insert_invoice`, `pdf_to_text`, the
  response-parsing part of `extract_invoice_data_with_llm`, and the handlers
  `handle_menu` / `handle_pdf`;
* the record store (supabase/postgres) as a list of records with a uniqueness
  constraint on `invoice_number`, an external collaborator of the repository.
-/

namespace InvoiceBot

/-! ## Python string primitives -/

/-- Whitespace characters stripped by Python's `str.strip()` / `float()`. -/
def isPySpace (c : Char) : Bool :=
  c = ' ' || c = '\t' || c = '\n' || c = '\r' || c = '\x0b' || c = '\x0c'

/-- Drop trailing characters satisfying `p`. -/
def dropTrailing (p : Char → Bool) (cs : List Char) : List Char :=
  (cs.reverse.dropWhile p).reverse

/-- Python `str.strip()` on a character list. -/
def pyStripL (cs : List Char) : List Char :=
  dropTrailing isPySpace (cs.dropWhile isPySpace)

/-- Python `str.strip()`. -/
def pyStrip (s : String) : String := ⟨pyStripL s.data⟩

/-- Does `pat` occur as a contiguous sublist of `hay`?  Models Python's
`pat in hay` substring test. -/
def hasSubL (hay pat : List Char) : Bool :=
  (List.range (hay.length + 1)).any fun i => (hay.drop i).take pat.length == pat

/-- Python substring test `pat in hay`. -/
def strHasSub (hay pat : String) : Bool := hasSubL hay.data pat.data

/-- Python `s.startswith(pre)`. -/
def pyStartsWith (s pre : String) : Bool := s.data.take pre.data.length == pre.data

/-- One fuel-indexed step of left-to-right, non-overlapping replacement of
`pat` by `rep`, as Python's `str.replace` does. -/
def replAllAux (pat rep : List Char) : Nat → List Char → List Char
  | 0, cs => cs
  | _ + 1, [] => []
  | fuel + 1, c :: cs =>
    if pat ≠ [] && ((c :: cs).take pat.length == pat) then
      rep ++ replAllAux pat rep fuel ((c :: cs).drop pat.length)
    else
      c :: replAllAux pat rep fuel cs

/-- Replace every occurrence of `pat` by `rep`, left to right. -/
def replAllL (pat rep cs : List Char) : List Char :=
  replAllAux pat rep cs.length cs

/-- Python `s.replace(pat, rep)` (for nonempty `pat`, the only case the
source uses). -/
def pyReplace (s pat rep : String) : String := ⟨replAllL pat.data rep.data s.data⟩

/-! ## Decimal digits -/

/-- ASCII decimal digit test. -/
def isDigitC (c : Char) : Bool := 48 ≤ c.toNat && c.toNat ≤ 57

/-- Character for a single digit value. -/
def digitToChar (d : Nat) : Char := Char.ofNat (48 + d)

/-- Fuel-indexed decimal rendering of a natural number (big-endian). -/
def natCharsAux : Nat → Nat → List Char
  | 0, _ => []
  | fuel + 1, n =>
    if n < 10 then [digitToChar n]
    else natCharsAux fuel (n / 10) ++ [digitToChar (n % 10)]

/-- Decimal digits of a natural number, as printed by Python. -/
def natChars (n : Nat) : List Char := natCharsAux (n + 1) n

/-- Accumulator-style decimal reading of a digit string. -/
def readNatAux (acc : Nat) : List Char → Nat
  | [] => acc
  | c :: cs => readNatAux (acc * 10 + (c.toNat - 48)) cs

/-- Value of a (big-endian) decimal digit string. -/
def readNatC (cs : List Char) : Nat := readNatAux 0 cs

/-- Nonempty all-digit string. -/
def digits1 (cs : List Char) : Bool := cs ≠ [] && cs.all isDigitC

/-- Left-pad with `'0'` to length `k`. -/
def padTo (k : Nat) (cs : List Char) : List Char :=
  List.replicate (k - cs.length) '0' ++ cs

/-! ## Dates: `datetime.strptime` / `strftime` for the two formats used -/

/-- A calendar date as held by a Python `datetime`. -/
structure PyDate where
  year : Nat
  month : Nat
  day : Nat
deriving DecidableEq, Repr

/-- Gregorian leap-year rule used by `datetime`. -/
def isLeap (y : Nat) : Bool := y % 4 = 0 && (y % 100 ≠ 0 || y % 400 = 0)

/-- Number of days in a month, as validated by the `datetime` constructor. -/
def daysInMonth (y m : Nat) : Nat :=
  if m = 2 then (if isLeap y then 29 else 28)
  else if m = 4 || m = 6 || m = 9 || m = 11 then 30
  else 31

/-- Split a character list on a separator character. -/
def splitOnC (sep : Char) : List Char → List (List Char)
  | [] => [[]]
  | c :: cs =>
    if c = sep then [] :: splitOnC sep cs
    else
      match splitOnC sep cs with
      | [] => [[c]]
      | p :: ps => (c :: p) :: ps

/-- Shared range/validity check of the `datetime` constructor after the
`strptime` field regexes (day and month are 1–2 digits, year exactly 4). -/
def mkDateChecked (ys ms ds : List Char) : Option PyDate :=
  if digits1 ys && ys.length == 4 && digits1 ms && ms.length ≤ 2
      && digits1 ds && ds.length ≤ 2 then
    let y := readNatC ys
    let m := readNatC ms
    let d := readNatC ds
    if 1 ≤ y && 1 ≤ m && m ≤ 12 && 1 ≤ d && d ≤ daysInMonth y m then
      some ⟨y, m, d⟩
    else none
  else none

/-- `datetime.strptime(s, "%Y-%m-%d")`. -/
def parseYMD (cs : List Char) : Option PyDate :=
  match splitOnC '-' cs with
  | [ys, ms, ds] => mkDateChecked ys ms ds
  | _ => none

/-- `datetime.strptime(s, "%d/%m/%Y")`. -/
def parseDMY (cs : List Char) : Option PyDate :=
  match splitOnC '/' cs with
  | [ds, ms, ys] => mkDateChecked ys ms ds
  | _ => none

/-- The date branch of `clean_invoice_data`: `%d/%m/%Y` when the value
contains a slash, `%Y-%m-%d` otherwise (the slash test on the stripped value
agrees with the source's test on the raw value, since stripping removes only
whitespace). -/
def parseDateFlexL (cs : List Char) : Option PyDate :=
  if cs.contains '/' then parseDMY cs else parseYMD cs

/-- `datetime.strftime("%Y-%m-%d")`, with the year zero-padded to 4 digits. -/
def formatDateL (d : PyDate) : List Char :=
  padTo 4 (natChars d.year) ++ '-' :: (padTo 2 (natChars d.month) ++ '-' :: padTo 2 (natChars d.day))

/-- The dates accepted by the `strptime`/`datetime` model: the ranges the
two parsers can produce. -/
def DateValid (d : PyDate) : Prop :=
  1 ≤ d.year ∧ d.year ≤ 9999 ∧ 1 ≤ d.month ∧ d.month ≤ 12 ∧
    1 ≤ d.day ∧ d.day ≤ daysInMonth d.year d.month

/-! ## Python floats, modelled as exact rationals

`float(s)` on the decimal-literal fragment is modelled as exact rational
parsing; `str(f)` is modelled as the exact decimal expansion of the rational
(CPython prints the shortest decimal that round-trips, and every value the
program manipulates is an exact decimal, where the two agree).  Rationals
whose denominator is not of the form `2^a * 5^b` have no Python-float
counterpart; `pyStr` renders them as the empty string, which `float` rejects,
so they normalize to null. -/

/-- The rational `sn * 10 ^ e`, built with `mkRat` so that it evaluates by
kernel reduction (the field operations on `ℚ` are irreducible). -/
def decValue (sn : Int) (e : Int) : ℚ :=
  if 0 ≤ e then mkRat (sn * (10 : Int) ^ e.toNat) 1 else mkRat sn (10 ^ (-e).toNat)

/-- Exponent tail of a float literal: `[eE][+-]?digits`, already past the
`e`.  Returns the signed exponent if the remainder is exactly that. -/
def parseExpTail (t : List Char) : Option Int :=
  let (eneg, t1) : Bool × List Char :=
    match t with
    | '+' :: u => (false, u)
    | '-' :: u => (true, u)
    | u => (false, u)
  let ed := t1.takeWhile isDigitC
  if ed == [] || t1.dropWhile isDigitC ≠ [] then none
  else some (if eneg then -(readNatC ed : Int) else (readNatC ed : Int))

/-- Final step of `float(s)`: combine sign, integer digits, fraction digits
and exponent into the value `± (ip·10^|fp| + fp) · 10^(e - |fp|)`. -/
def floatFinish (neg : Bool) (ip fp : List Char) (eOpt : Option Int) : Option ℚ :=
  eOpt.map fun e =>
    decValue
      (if neg then -((readNatC ip * 10 ^ fp.length + readNatC fp : Nat) : Int)
       else ((readNatC ip * 10 ^ fp.length + readNatC fp : Nat) : Int))
      (e - (fp.length : Int))

/-- Python `float(s)` on the decimal-literal fragment
`[+-]? (digits [. digits*] | . digits) ([eE][+-]?digits)?`, with surrounding
whitespace stripped, returning the exact rational value. -/
def pyFloatOfChars (cs0 : List Char) : Option ℚ :=
  let cs := pyStripL cs0
  let neg : Bool := cs.head? == some '-'
  let cs1 := if cs.head? == some '+' || cs.head? == some '-' then cs.tail else cs
  let ip := cs1.takeWhile isDigitC
  let r1 := cs1.dropWhile isDigitC
  let hasDot : Bool := r1.head? == some '.'
  let fp := if hasDot then r1.tail.takeWhile isDigitC else []
  let r2 := if hasDot then r1.tail.dropWhile isDigitC else r1
  if ip == [] && fp == [] then none
  else
    floatFinish neg ip fp
      (if r2 == [] then some 0
       else if r2.head? == some 'e' || r2.head? == some 'E' then parseExpTail r2.tail
       else none)

/-- Python `float(s)`. -/
def pyFloat (s : String) : Option ℚ := pyFloatOfChars s.data

/-- Smallest `k` in `[start, start+fuel)` with `d ∣ 10^k`, if any. -/
def findScaleAux (d : Nat) : Nat → Nat → Option Nat
  | _, 0 => none
  | k, fuel + 1 => if 10 ^ k % d == 0 then some k else findScaleAux d (k + 1) fuel

/-- Smallest `k ≤ d` with `d ∣ 10^k`; exists exactly when `d = 2^a * 5^b`,
i.e. when a rational with denominator `d` is a decimal fraction. -/
def decScaleDen (d : Nat) : Option Nat := findScaleAux d 0 (d + 1)

/-- Python `str(f)` for a float: the exact decimal expansion `I.F` of the
rational (with sign, and a single `0` after the point for integral values,
as Python prints).  Non-decimal rationals render as `""` (see above). -/
def qChars (q : ℚ) : List Char :=
  match decScaleDen q.den with
  | none => []
  | some k =>
    let m := q.num.natAbs * (10 ^ k / q.den)
    (if q.num < 0 then ['-'] else []) ++ natChars (m / 10 ^ k)
      ++ '.' :: (if k = 0 then ['0'] else padTo k (natChars (m % 10 ^ k)))

/-! ## Records

ProvisionalRecord / InvoiceRecord values: the spec's data model declares the
provisional record "a mapping from a fixed set of field names to values of
unknown shape (string, number, or null)"; records are Python dicts, modelled
as association lists preserving insertion order. -/

/-- A field value: string, number (exact rational, see above) or null. -/
inductive Val where
  | str (s : String)
  | num (q : ℚ)
  | null
deriving DecidableEq, Repr

/-- A Python dict with string keys, in insertion order. -/
abbrev PyDict := List (String × Val)

/-- Python `str(value)` for the value shapes a record holds. -/
def pyStr : Val → String
  | .str s => s
  | .num q => ⟨qChars q⟩
  | .null => "None"

/-- Python truthiness of a record value. -/
def pyTruthy : Val → Bool
  | .str s => s != ""
  | .num q => q != 0
  | .null => false

/-- `d.get(k)`: first binding of `k`, if any. -/
def getField (r : PyDict) (k : String) : Option Val :=
  (r.find? (fun kv => kv.1 == k)).map (·.2)

/-- `d[k] = v`: overwrite in place when the key exists, else append. -/
def setField (r : PyDict) (k : String) (v : Val) : PyDict :=
  if r.any (fun kv => kv.1 == k) then
    r.map (fun kv => if kv.1 == k then (k, v) else kv)
  else r ++ [(k, v)]

/-! ## The normalizer: `clean_invoice_data` -/

/-- Key test of the date branch: `"date" in key or "issued" in key or
"period" in key`. -/
def isDateKey (key : String) : Bool :=
  strHasSub key "date" || strHasSub key "issued" || strHasSub key "period"

/-- The string cleaned by the amount branch:
`str(value).replace(",", ".").replace("EUR", "").replace(" ", "")`. -/
def amountCleanStr (v : Val) : String :=
  pyReplace (pyReplace (pyReplace (pyStr v) "," ".") "EUR" "") " " ""

/-- Loop body of `clean_invoice_data` for one key.  `data[key]` is threaded
through the branches; each branch tests the original `value`, exactly as the
source does (so a later branch can overwrite an earlier branch's write). -/
def cleanField (key : String) (v : Val) : Val :=
  let r1 :=
    match v with
    | .str s =>
      let a := if pyStrip s = "" then Val.null else Val.str s
      let b :=
        if s ≠ "" ∧ isDateKey key then
          match parseDateFlexL (pyStripL s.data) with
          | some d => Val.str ⟨formatDateL d⟩
          | none => Val.null
        else a
      if key = "vat_percent" ∧ s ≠ "" then
        match pyFloat (pyReplace (pyReplace s "%" "") "," ".") with
        | some q => Val.num q
        | none => Val.null
      else b
    | _ => v
  if pyStartsWith key "amount_" then
    match v with
    | .null => r1
    | _ =>
      match pyFloat (amountCleanStr v) with
      | some q => Val.num q
      | none => Val.null
  else r1

/-- `clean_invoice_data`: normalize every field in place. -/
def clean_invoice_data (data : PyDict) : PyDict :=
  data.map fun kv => (kv.1, cleanField kv.1 kv.2)

/-! ## JSON (`json.loads`) -/

/-- A parsed JSON value. -/
inductive Json where
  | null
  | bool (b : Bool)
  | num (q : ℚ)
  | str (s : String)
  | arr (elems : List Json)
  | obj (fields : List (String × Json))

/-- JSON whitespace. -/
def jsonWsChar (c : Char) : Bool := c = ' ' || c = '\t' || c = '\n' || c = '\r'

/-- Skip JSON whitespace. -/
def skipWs (cs : List Char) : List Char := cs.dropWhile jsonWsChar

/-- Hexadecimal digit value. -/
def hexVal (c : Char) : Option Nat :=
  if 48 ≤ c.toNat ∧ c.toNat ≤ 57 then some (c.toNat - 48)
  else if 97 ≤ c.toNat ∧ c.toNat ≤ 102 then some (c.toNat - 87)
  else if 65 ≤ c.toNat ∧ c.toNat ≤ 70 then some (c.toNat - 55)
  else none

/-- JSON string body, after the opening quote: returns the decoded content
and the remainder after the closing quote.  `\uXXXX` escapes are modelled for
non-surrogate code points. -/
def parseJStr : Nat → List Char → Option (List Char × List Char)
  | 0, _ => none
  | _ + 1, [] => none
  | fuel + 1, c :: cs =>
    if c = '"' then some ([], cs)
    else if c = '\\' then
      match cs with
      | [] => none
      | e :: cs' =>
        let esc : Option (Char × List Char) :=
          if e = '"' then some ('"', cs')
          else if e = '\\' then some ('\\', cs')
          else if e = '/' then some ('/', cs')
          else if e = 'b' then some ('\x08', cs')
          else if e = 'f' then some ('\x0c', cs')
          else if e = 'n' then some ('\n', cs')
          else if e = 'r' then some ('\r', cs')
          else if e = 't' then some ('\t', cs')
          else if e = 'u' then
            match cs' with
            | h1 :: h2 :: h3 :: h4 :: cs'' =>
              match hexVal h1, hexVal h2, hexVal h3, hexVal h4 with
              | some a, some b, some c2, some d =>
                let n := ((a * 16 + b) * 16 + c2) * 16 + d
                if n < 0xd800 then some (Char.ofNat n, cs'') else none
              | _, _, _, _ => none
            | _ => none
          else none
        match esc with
        | none => none
        | some (ch, rest) =>
          match parseJStr fuel rest with
          | some (content, rest') => some (ch :: content, rest')
          | none => none
    else if c.toNat < 32 then none
    else
      match parseJStr fuel cs with
      | some (content, rest) => some (c :: content, rest)
      | none => none

/-- Exponent of a JSON number, after the `e`: `[+-]?[0-9]+` and remainder. -/
def parseExpTailJ (t : List Char) : Option (Int × List Char) :=
  let (eneg, t1) : Bool × List Char :=
    match t with
    | '+' :: u => (false, u)
    | '-' :: u => (true, u)
    | u => (false, u)
  let ed := t1.takeWhile isDigitC
  if ed == [] then none
  else some ((if eneg then -(readNatC ed : Int) else (readNatC ed : Int)), t1.dropWhile isDigitC)

/-- JSON number: `-? (0 | [1-9][0-9]*) (. [0-9]+)? ([eE][+-]?[0-9]+)?`,
returning the exact rational and the remainder. -/
def parseJNum (cs : List Char) : Option (ℚ × List Char) :=
  let (neg, cs1) : Bool × List Char :=
    match cs with
    | '-' :: t => (true, t)
    | t => (false, t)
  let ip := cs1.takeWhile isDigitC
  let r1 := cs1.dropWhile isDigitC
  if ip == [] then none
  else if ip.length > 1 && (ip.head? == some '0') then none
  else
    let (fpOk, fp, r2) : Bool × List Char × List Char :=
      match r1 with
      | '.' :: t =>
        let f := t.takeWhile isDigitC
        (f ≠ [], f, t.dropWhile isDigitC)
      | t => (true, [], t)
    if !fpOk then none
    else
      let (eOk, e, r3) : Bool × Int × List Char :=
        match r2 with
        | 'e' :: t | 'E' :: t =>
          match parseExpTailJ t with
          | some (ev, rest) => (true, ev, rest)
          | none => (false, 0, r2)
        | t => (true, 0, t)
      if !eOk then none
      else
        let N : Nat := readNatC ip * 10 ^ fp.length + readNatC fp
        let SN : Int := if neg then -(N : Int) else (N : Int)
        some (decValue SN (e - (fp.length : Int)), r3)

mutual

/-- JSON value (fuel-indexed recursive descent). -/
def parseJValue : Nat → List Char → Option (Json × List Char)
  | 0, _ => none
  | fuel + 1, cs0 =>
    let cs := skipWs cs0
    match cs with
    | '\x7b' :: t =>
      match parseJFields fuel t with
      | some (fs, rest) => some (.obj fs, rest)
      | none => none
    | '[' :: t =>
      match parseJElems fuel t with
      | some (es, rest) => some (.arr es, rest)
      | none => none
    | '"' :: t =>
      match parseJStr (t.length + 1) t with
      | some (content, rest) => some (.str ⟨content⟩, rest)
      | none => none
    | _ =>
      if cs.take 4 == "true".data then some (.bool true, cs.drop 4)
      else if cs.take 5 == "false".data then some (.bool false, cs.drop 5)
      else if cs.take 4 == "null".data then some (.null, cs.drop 4)
      else
        match parseJNum cs with
        | some (q, rest) => some (.num q, rest)
        | none => none

/-- Members of a JSON object, after the opening brace. -/
def parseJFields : Nat → List Char → Option (List (String × Json) × List Char)
  | 0, _ => none
  | fuel + 1, cs0 =>
    let cs := skipWs cs0
    match cs with
    | '\x7d' :: t => some ([], t)
    | '"' :: t =>
      match parseJStr (t.length + 1) t with
      | none => none
      | some (key, r1) =>
        match skipWs r1 with
        | ':' :: r3 =>
          match parseJValue fuel r3 with
          | none => none
          | some (v, r4) =>
            match skipWs r4 with
            | ',' :: r6 =>
              match skipWs r6 with
              | '\x7d' :: _ => none
              | _ =>
                match parseJFields fuel r6 with
                | some (fs, rest) => some ((⟨key⟩, v) :: fs, rest)
                | none => none
            | '\x7d' :: r6 => some ([(⟨key⟩, v)], r6)
            | _ => none
        | _ => none
    | _ => none

/-- Elements of a JSON array, after the opening bracket. -/
def parseJElems : Nat → List Char → Option (List Json × List Char)
  | 0, _ => none
  | fuel + 1, cs0 =>
    let cs := skipWs cs0
    match cs with
    | ']' :: t => some ([], t)
    | _ =>
      match parseJValue fuel cs with
      | none => none
      | some (v, r1) =>
        match skipWs r1 with
        | ',' :: r2 =>
          match skipWs r2 with
          | ']' :: _ => none
          | _ =>
            match parseJElems fuel r2 with
            | some (es, rest) => some ((v :: es), rest)
            | none => none
        | ']' :: r2 => some ([v], r2)
        | _ => none

end

/-- `json.loads` on a character list: one value, surrounded only by
whitespace. -/
def jsonLoadsL (cs : List Char) : Option Json :=
  match parseJValue (cs.length + 1) cs with
  | some (j, rest) => if skipWs rest == [] then some j else none
  | none => none

/-- `json.loads`. -/
def jsonLoads (s : String) : Option Json := jsonLoadsL s.data

/-! ## Extraction response parsing (`extract_invoice_data_with_llm`) -/

/-- Greedy `re.search(r"\x7b.*\x7d", content, re.DOTALL)`: the span from the
first opening brace to the last closing brace, when the first opening brace
comes before the last closing brace. -/
def braceSpan (cs : List Char) : Option (List Char) :=
  match cs.findIdx? (· = '\x7b'), cs.reverse.findIdx? (· = '\x7d') with
  | some i, some jr =>
    let j := cs.length - 1 - jr
    if i < j then some ((cs.drop i).take (j - i + 1)) else none
  | _, _ => none

/-- An exception escaping the response-parsing code. -/
inductive ExtractErr where
  | valueError (msg : String)
  | jsonDecodeError
deriving DecidableEq, Repr

/-- Response parsing of `extract_invoice_data_with_llm` (lines 41–51):
direct `json.loads`; on failure, `json.loads` of the greedy brace span; when
no span exists, `raise ValueError("LLM did not return valid JSON")`.  A parse
failure on an existing span escapes as the JSON decoder's own exception. -/
def extract_response_parse (content : String) : Except ExtractErr Json :=
  match jsonLoads content with
  | some j => .ok j
  | none =>
    match braceSpan content.data with
    | some sub =>
      match jsonLoadsL sub with
      | some j => .ok j
      | none => .error .jsonDecodeError
    | none => .error (.valueError "LLM did not return valid JSON")

/-! ## The record store and persistence (`insert_invoice`, `handle_pdf`) -/

/-- The postgres duplicate-key signature the source greps for. -/
def dupSig : String := "duplicate key value violates unique constraint"

/-- An exception raised by the store client, carrying its `args` tuple
(stringified, as the source only ever inspects `str(e.args[0])`). -/
structure DbError where
  args : List String
deriving DecidableEq, Repr

/-- Modelled from the spec: the record store collaborator (supabase/postgres,
not part of this repository): "`insert(record)` failing distinctly on
unique-constraint violation vs. other errors", with a uniqueness constraint
on `invoice_number`; the duplicate failure carries the duplicate-key
signature in its first argument, as postgres phrases it. -/
def storeInsert (store : List PyDict) (r : PyDict) : Except DbError (List PyDict) :=
  match getField r "invoice_number" with
  | some (.str n) =>
    if store.any (fun row => getField row "invoice_number" == some (.str n)) then
      .error ⟨[dupSig ++ " \"invoices_invoice_number_key\""]⟩
    else .ok (store ++ [r])
  | _ => .ok (store ++ [r])

/-- `insert_invoice`: clean the record, then insert it.  (The source's
`clean_invoice_data` mutates the dict in place, so the caller's record is the
cleaned one afterwards.) -/
def insert_invoice (store : List PyDict) (data : PyDict) : Except DbError (List PyDict) :=
  storeInsert store (clean_invoice_data data)

/-- The duplicate test of `handle_pdf` (line 177):
`hasattr(e, "args") and e.args and "duplicate key value violates unique
constraint" in str(e.args[0])`. -/
def isDupErr (e : DbError) : Bool :=
  !e.args.isEmpty && strHasSub (e.args.headD "") dupSig

/-- Python `str(e)` for a store exception. -/
def dbErrStr (e : DbError) : String := e.args.headD ""

/-! ## Telegram handlers -/

/-- A reply sent back to the user. -/
inductive Reply where
  | textMsg (s : String)
  | documentMsg (file_url : Option Val) (filename : Val)
deriving DecidableEq, Repr

/-- The menu-button caption `"загрузить инвойс"`. -/
def uploadBtn : String := "загрузить инвойс"

/-- Modelled from the spec: the store's equality lookup
(`select(field = value) -> rows`, a collaborator not in the repository), as
used by `handle_menu` lines 129–138. -/
def resolveRows (store : List PyDict) (n : String) : List PyDict :=
  store.filter (fun row => getField row "invoice_number" == some (.str n))

/-- The retrieval resolver (lines 129–138 of `handle_menu`): first matching
row's `file_url` and `original_file_name`, with Python's `or` fallback to
`f"{invoice_number}.pdf"`; "no such invoice" text when nothing matches. -/
def resolveInvoice (store : List PyDict) (n : String) : Reply :=
  match resolveRows store n with
  | [] => .textMsg "Инвойса с таким номером нет."
  | row :: _ =>
    let url := getField row "file_url"
    let fn : Val :=
      match getField row "original_file_name" with
      | some v => if pyTruthy v then v else .str (n ++ ".pdf")
      | none => .str (n ++ ".pdf")
    .documentMsg url fn

/-- Result of `handle_menu`: the reply and the per-user
`awaiting_invoice_number` flag afterwards. -/
structure MenuResult where
  reply : Reply
  awaiting : Bool
deriving DecidableEq, Repr

/-- `handle_menu`: menu-button press arms the flag; otherwise, when armed,
the flag is dropped and the stripped text is looked up; otherwise a hint is
sent. -/
def handle_menu (store : List PyDict) (awaiting : Bool) (text : String) : MenuResult :=
  if text = uploadBtn then
    ⟨.textMsg "Введи номер инвойса (например, ES-AEU-2025-407254):", true⟩
  else if awaiting then
    ⟨resolveInvoice store (pyStrip text), false⟩
  else
    ⟨.textMsg "отправь PDF.", awaiting⟩

/-- One page of a PDF document: the text `page.extract_text()` finds, if
any. -/
structure PdfPage where
  extractedText : Option String
deriving DecidableEq, Repr

/-- A submitted PDF as seen by `pdfplumber`: either readable pages, or a
document on which opening/extraction raises. -/
inductive PdfDoc where
  | readable (pages : List PdfPage)
  | corrupt (msg : String)
deriving DecidableEq, Repr

/-- `pdf_to_text`: joins `page.extract_text() or ""` over the pages with
newlines (`"" or ""` is `""`, so the `or` is `Option.getD`); a raising
document propagates its exception. -/
def pdf_to_text : PdfDoc → Except String String
  | .corrupt msg => .error msg
  | .readable pages =>
    .ok (String.intercalate "\n" (pages.map fun p => p.extractedText.getD ""))

/-- The incoming Telegram document. -/
structure TgDocument where
  mime_type : String
  file_name : String
  content : PdfDoc
deriving DecidableEq, Repr

/-- Python `str(e)` of an exception escaping the extraction step. -/
def extractErrStr : ExtractErr → String
  | .valueError msg => msg
  | .jsonDecodeError => "Expecting value: line 1 column 1 (char 0)"

/-- The success message body: `"\n".join(f"<b>~k~</b>: ~v~" ...)` over the
record (with `~…~` the f-string holes). -/
def infoStr (d : PyDict) : String :=
  String.intercalate "\n" (d.map fun kv => "<b>" ++ kv.1 ++ "</b>: " ++ pyStr kv.2)

/-- Attachment step of `handle_pdf` (lines 169–170): set `file_url` and
`original_file_name` on the extracted record. -/
def attachFields (rec : PyDict) (file_url original_file_name : String) : PyDict :=
  setField (setField rec "file_url" (.str file_url)) "original_file_name"
    (.str original_file_name)

/-- Classification of an insert failure (lines 175–182): the duplicate-key
signature yields the friendly "already exists" text, anything else surfaces
the raw cause. -/
def classifyInsertError (e : DbError) : Reply :=
  if isDupErr e then .textMsg "Такой инвойс ест уже в базе."
  else .textMsg ("Ошибка записи в базу: " ++ dbErrStr e)

/-- `handle_pdf` (lines 144–195).  External collaborators enter as
parameters: `extracted` is the outcome of the extraction step (the
`try`/`except` around it catches every exception), `file_url` the public URL
returned by the storage upload.  The returned `Except` is an exception
escaping the handler: the source wraps neither `pdf_to_text` nor the upload
in a `try`. -/
def handle_pdf (store : List PyDict) (doc : TgDocument)
    (extracted : Except ExtractErr PyDict) (file_url : String) :
    Except String (Reply × List PyDict) :=
  if doc.mime_type ≠ "application/pdf" then .ok (.textMsg "Это не PDF-файл.", store)
  else
    match pdf_to_text doc.content with
    | .error e => .error e
    | .ok _text =>
      match extracted with
      | .error e => .ok (.textMsg ("Ошибка LLM: " ++ extractErrStr e), store)
      | .ok invoice_data =>
        let cleaned := clean_invoice_data (attachFields invoice_data file_url doc.file_name)
        match storeInsert store cleaned with
        | .error e => .ok (classifyInsertError e, store)
        | .ok store2 =>
          .ok (.textMsg ("Инвойс загружен и сохранён в базу:\n\n" ++ infoStr cleaned), store2)

end InvoiceBot


namespace InvoiceBot

/-! ## Lemmas: decimal digits -/

theorem readNatAux_nil (acc : Nat) : readNatAux acc [] = acc := rfl

theorem readNatAux_cons (acc : Nat) (c : Char) (cs : List Char) :
    readNatAux acc (c :: cs) = readNatAux (acc * 10 + (c.toNat - 48)) cs := rfl

theorem readNatAux_append (l1 : List Char) : ∀ (acc : Nat) (l2 : List Char),
    readNatAux acc (l1 ++ l2) = readNatAux (readNatAux acc l1) l2 := by
  induction l1 with
  | nil => intro acc l2; rfl
  | cons c cs ih =>
    intro acc l2
    rw [List.cons_append, readNatAux_cons, readNatAux_cons, ih]

theorem digitToChar_toNat {d : Nat} (h : d < 10) : (digitToChar d).toNat = 48 + d := by
  interval_cases d <;> decide

theorem isDigitC_digitToChar {d : Nat} (h : d < 10) : isDigitC (digitToChar d) = true := by
  interval_cases d <;> decide

theorem natCharsAux_spec (fuel : Nat) :
    ∀ n, n < fuel →
      (natCharsAux fuel n).all isDigitC = true ∧ natCharsAux fuel n ≠ [] ∧
        ∀ acc, readNatAux acc (natCharsAux fuel n) =
          acc * 10 ^ (natCharsAux fuel n).length + n := by
  induction fuel with
  | zero => intro n hn; omega
  | succ fuel ih =>
    intro n hn
    by_cases h10 : n < 10
    · rw [show natCharsAux (fuel + 1) n = [digitToChar n] by rw [natCharsAux]; simp [h10]]
      refine ⟨by simp [isDigitC_digitToChar h10], by simp, ?_⟩
      intro acc
      rw [readNatAux_cons, digitToChar_toNat h10, readNatAux_nil]
      simp

    · have hdiv : n / 10 < fuel := by
        have : n / 10 < n := Nat.div_lt_self (by omega) (by omega)
        omega
      obtain ⟨hall, hne, hread⟩ := ih (n / 10) hdiv
      have hmod : n % 10 < 10 := Nat.mod_lt _ (by omega)
      rw [show natCharsAux (fuel + 1) n
            = natCharsAux fuel (n / 10) ++ [digitToChar (n % 10)] by
          rw [natCharsAux]; simp [h10]]
      refine ⟨?_, by simp, ?_⟩
      · rw [List.all_append, hall]
        simp [isDigitC_digitToChar hmod]
      · intro acc
        rw [readNatAux_append, hread acc, readNatAux_cons, readNatAux_nil,
          digitToChar_toNat hmod, List.length_append, List.length_cons, List.length_nil,
          pow_succ, ← mul_assoc]
        generalize acc * 10 ^ (natCharsAux fuel (n / 10)).length = A
        omega

theorem readNatC_natChars (n : Nat) : readNatC (natChars n) = n := by
  obtain ⟨-, -, hread⟩ := natCharsAux_spec (n + 1) n (Nat.lt_succ_self n)
  simpa [readNatC, natChars] using hread 0

theorem natChars_all_digits (n : Nat) : (natChars n).all isDigitC = true :=
  (natCharsAux_spec (n + 1) n (Nat.lt_succ_self n)).1

theorem natChars_ne_nil (n : Nat) : natChars n ≠ [] :=
  (natCharsAux_spec (n + 1) n (Nat.lt_succ_self n)).2.1

theorem natCharsAux_length_le (fuel : Nat) :
    ∀ n k, n < fuel → n < 10 ^ k → 1 ≤ k → (natCharsAux fuel n).length ≤ k := by
  induction fuel with
  | zero => intro n k hn; omega
  | succ fuel ih =>
    intro n k hn hk hk1
    by_cases h10 : n < 10
    · rw [show natCharsAux (fuel + 1) n = [digitToChar n] by rw [natCharsAux]; simp [h10]]
      simpa using hk1
    · have hdiv : n / 10 < fuel := by
        have : n / 10 < n := Nat.div_lt_self (by omega) (by omega)
        omega
      have hk2 : 2 ≤ k := by
        rcases Nat.lt_or_ge k 2 with h | h
        · exfalso
          have : k = 1 := by omega
          subst this
          simp at hk
          omega
        · exact h
      have hdle : n / 10 < 10 ^ (k - 1) := by
        have h2 : 10 ^ k = 10 ^ (k - 1) * 10 := by
          rw [← pow_succ]
          congr 1
          omega
        rw [h2] at hk
        exact Nat.div_lt_of_lt_mul (by omega)
      have := ih (n / 10) (k - 1) hdiv hdle (by omega)
      rw [show natCharsAux (fuel + 1) n
            = natCharsAux fuel (n / 10) ++ [digitToChar (n % 10)] by
          rw [natCharsAux]; simp [h10]]
      rw [List.length_append]
      simp only [List.length_cons, List.length_nil]
      omega

theorem natChars_length_le {n k : Nat} (hk : n < 10 ^ k) (hk1 : 1 ≤ k) :
    (natChars n).length ≤ k :=
  natCharsAux_length_le (n + 1) n k (Nat.lt_succ_self n) hk hk1

theorem readNatAux_replicate_zero (j : Nat) : ∀ acc : Nat,
    readNatAux acc (List.replicate j '0') = acc * 10 ^ j := by
  induction j with
  | zero => intro acc; simp [readNatAux_nil]
  | succ j ih =>
    intro acc
    rw [List.replicate_succ, readNatAux_cons, ih]
    show (acc * 10 + (48 - 48)) * 10 ^ j = acc * 10 ^ (j + 1)
    rw [pow_succ]
    ring

theorem readNatC_padTo (k : Nat) (cs : List Char) : readNatC (padTo k cs) = readNatC cs := by
  simp only [readNatC, padTo, readNatAux_append, readNatAux_replicate_zero]
  norm_num

theorem padTo_length {k : Nat} {cs : List Char} (h : cs.length ≤ k) :
    (padTo k cs).length = k := by
  simp only [padTo, List.length_append, List.length_replicate]
  omega

theorem padTo_all_digits {k : Nat} {cs : List Char} (h : cs.all isDigitC = true) :
    (padTo k cs).all isDigitC = true := by
  simp only [padTo, List.all_append, h, Bool.and_true]
  rw [List.all_eq_true]
  intro c hc
  rw [List.eq_of_mem_replicate hc]
  decide

theorem readNatAux_lt (cs : List Char) :
    ∀ acc, cs.all isDigitC = true → readNatAux acc cs < (acc + 1) * 10 ^ cs.length := by
  induction cs with
  | nil => intro acc _; simp [readNatAux_nil]
  | cons c cs ih =>
    intro acc hall
    simp only [List.all_cons, Bool.and_eq_true] at hall
    have hd : c.toNat - 48 ≤ 9 := by
      have := hall.1
      simp [isDigitC] at this
      omega
    rw [readNatAux_cons]
    have := ih (acc * 10 + (c.toNat - 48)) hall.2
    calc readNatAux (acc * 10 + (c.toNat - 48)) cs
        < (acc * 10 + (c.toNat - 48) + 1) * 10 ^ cs.length := this
      _ ≤ (acc + 1) * 10 ^ (c :: cs).length := by
          simp only [List.length_cons, pow_succ]
          nlinarith [pow_pos (by norm_num : (0:ℕ) < 10) cs.length]

theorem readNatC_lt {cs : List Char} (h : cs.all isDigitC = true) :
    readNatC cs < 10 ^ cs.length := by
  simpa [readNatC] using readNatAux_lt cs 0 h

end InvoiceBot

namespace InvoiceBot

/-! ## Lemmas: string utilities -/

theorem takeWhile_append_all (p : Char → Bool) (l1 l2 : List Char)
    (h1 : ∀ c ∈ l1, p c = true) (h2 : ∀ c, l2.head? = some c → p c = false) :
    (l1 ++ l2).takeWhile p = l1 := by
  induction l1 with
  | nil =>
    cases l2 with
    | nil => rfl
    | cons c t =>
      simp only [List.nil_append, List.takeWhile_cons, h2 c rfl]
      simp
  | cons c cs ih =>
    simp only [List.cons_append, List.takeWhile_cons, h1 c (by simp)]
    simp only [if_true]
    rw [ih (fun x hx => h1 x (by simp [hx]))]

theorem dropWhile_append_all (p : Char → Bool) (l1 l2 : List Char)
    (h1 : ∀ c ∈ l1, p c = true) (h2 : ∀ c, l2.head? = some c → p c = false) :
    (l1 ++ l2).dropWhile p = l2 := by
  induction l1 with
  | nil =>
    cases l2 with
    | nil => rfl
    | cons c t =>
      simp only [List.nil_append, List.dropWhile_cons, h2 c rfl]
      simp
  | cons c cs ih =>
    simp only [List.cons_append, List.dropWhile_cons, h1 c (by simp)]
    simp only [if_true]
    rw [ih (fun x hx => h1 x (by simp [hx]))]

theorem dropWhile_of_all_not (p : Char → Bool) (cs : List Char)
    (h : ∀ c ∈ cs, p c = false) : cs.dropWhile p = cs := by
  cases cs with
  | nil => rfl
  | cons c t =>
    simp only [List.dropWhile_cons, h c (by simp)]
    simp

theorem pyStripL_of_all_not (cs : List Char) (h : ∀ c ∈ cs, isPySpace c = false) :
    pyStripL cs = cs := by
  unfold pyStripL dropTrailing
  rw [dropWhile_of_all_not _ _ h,
    dropWhile_of_all_not _ _ (fun c hc => h c (List.mem_reverse.mp hc)), List.reverse_reverse]

theorem replAllAux_of_head_not_mem {pat : List Char} {c0 : Char} (rep : List Char)
    (hp : pat.head? = some c0) :
    ∀ fuel cs, c0 ∉ cs → replAllAux pat rep fuel cs = cs := by
  intro fuel
  induction fuel with
  | zero => intro cs _; rfl
  | succ fuel ih =>
    intro cs hmem
    cases cs with
    | nil => rfl
    | cons c t =>
      obtain ⟨pt, rfl⟩ : ∃ pt, pat = c0 :: pt := by
        cases pat with
        | nil => simp at hp
        | cons a b =>
          have ha : a = c0 := by simpa using hp
          exact ⟨b, by rw [ha]⟩
      have hcc : c ≠ c0 := fun h => hmem (h ▸ List.mem_cons_self c t)
      have hcond : ((c0 :: pt : List Char) ≠ [] && ((c :: t).take (c0 :: pt).length == c0 :: pt)) = false := by
        simp only [List.length_cons, List.take_succ_cons, Bool.and_eq_false_iff]
        right
        rw [beq_eq_false_iff_ne]
        intro h
        exact hcc (by injection h)
      rw [replAllAux, hcond]
      simp only [Bool.false_eq_true, if_false]
      rw [ih t (fun h => hmem (List.mem_cons_of_mem c h))]

theorem replAllL_of_head_not_mem {pat : List Char} {c0 : Char} (rep : List Char)
    (hp : pat.head? = some c0) (cs : List Char) (h : c0 ∉ cs) :
    replAllL pat rep cs = cs :=
  replAllAux_of_head_not_mem rep hp cs.length cs h

theorem pyReplace_of_head_not_mem {pat : String} {c0 : Char} (s rep : String)
    (hp : pat.data.head? = some c0) (h : c0 ∉ s.data) :
    pyReplace s pat rep = s := by
  unfold pyReplace
  rw [replAllL_of_head_not_mem _ hp _ h]

theorem splitOnC_ne_nil (sep : Char) (cs : List Char) : splitOnC sep cs ≠ [] := by
  cases cs with
  | nil => simp [splitOnC]
  | cons c t =>
    rw [splitOnC]
    by_cases h : c = sep
    · simp [h]
    · simp only [h, if_false]
      match hs : splitOnC sep t with
      | [] => simp
      | p :: ps => simp

theorem splitOnC_of_not_mem {sep : Char} {cs : List Char} (h : sep ∉ cs) :
    splitOnC sep cs = [cs] := by
  induction cs with
  | nil => rfl
  | cons c t ih =>
    have hc : ¬ c = sep := fun hh => h (hh ▸ List.mem_cons_self c t)
    rw [splitOnC]
    simp only [if_neg (fun hh => hc hh)]
    rw [ih (fun hh => h (List.mem_cons_of_mem c hh))]

theorem splitOnC_append {sep : Char} {a : List Char} (r : List Char) (h : sep ∉ a) :
    splitOnC sep (a ++ sep :: r) = a :: splitOnC sep r := by
  induction a with
  | nil => simp [splitOnC]
  | cons c t ih =>
    have hc : ¬ c = sep := fun hh => h (hh ▸ List.mem_cons_self c t)
    rw [List.cons_append, splitOnC]
    simp only [if_neg (fun hh => hc hh)]
    rw [ih (fun hh => h (List.mem_cons_of_mem c hh))]

/-! ## Lemmas: character classes -/

theorem ne_of_digit_of_not {c d : Char} (hc : isDigitC c = true) (hd : isDigitC d = false) :
    c ≠ d := by
  intro h
  subst h
  rw [hc] at hd
  cases hd

theorem isPySpace_false_of_digit {c : Char} (h : isDigitC c = true) : isPySpace c = false := by
  simp only [isDigitC, Bool.and_eq_true, decide_eq_true_eq] at h
  apply Bool.eq_false_iff.mpr
  intro hsp
  simp only [isPySpace, Bool.or_eq_true, decide_eq_true_eq] at hsp
  obtain ⟨h1, h2⟩ := h
  rcases hsp with ((((rfl | rfl) | rfl) | rfl) | rfl) | rfl <;> revert h1 h2 <;> decide

end InvoiceBot

namespace InvoiceBot

/-! ## Lemmas: dates -/

theorem daysInMonth_le (y m : Nat) : daysInMonth y m ≤ 31 := by
  unfold daysInMonth
  split
  · split <;> omega
  · split <;> omega

theorem mkDateChecked_def (ys ms ds : List Char) :
    mkDateChecked ys ms ds =
      if (digits1 ys && ys.length == 4 && digits1 ms && decide (ms.length ≤ 2)
          && digits1 ds && decide (ds.length ≤ 2)) = true then
        if (decide (1 ≤ readNatC ys) && decide (1 ≤ readNatC ms) && decide (readNatC ms ≤ 12)
            && decide (1 ≤ readNatC ds)
            && decide (readNatC ds ≤ daysInMonth (readNatC ys) (readNatC ms))) = true then
          some ⟨readNatC ys, readNatC ms, readNatC ds⟩
        else none
      else none := rfl

theorem mkDateChecked_valid {ys ms ds : List Char} {dt : PyDate}
    (h : mkDateChecked ys ms ds = some dt) : DateValid dt := by
  rw [mkDateChecked_def] at h
  split at h
  case isTrue h1 =>
    split at h
    case isTrue h2 =>
      injection h with h
      subst h
      simp only [Bool.and_eq_true, decide_eq_true_eq, beq_iff_eq, digits1,
        ne_eq] at h1 h2
      obtain ⟨⟨⟨⟨⟨hy, hylen⟩, hm⟩, hmlen⟩, hd⟩, hdlen⟩ := h1
      obtain ⟨⟨⟨⟨hy1, hm1⟩, hm12⟩, hd1⟩, hdm⟩ := h2
      refine ⟨hy1, ?_, hm1, hm12, hd1, hdm⟩
      have := readNatC_lt hy.2
      rw [hylen] at this
      norm_num at this
      dsimp only
      omega
    case isFalse => cases h
  case isFalse => cases h

theorem parseYMD_valid {cs : List Char} {dt : PyDate} (h : parseYMD cs = some dt) :
    DateValid dt := by
  unfold parseYMD at h
  split at h
  · exact mkDateChecked_valid h
  · cases h

theorem parseDMY_valid {cs : List Char} {dt : PyDate} (h : parseDMY cs = some dt) :
    DateValid dt := by
  unfold parseDMY at h
  split at h
  · exact mkDateChecked_valid h
  · cases h

theorem parseDateFlexL_valid {cs : List Char} {dt : PyDate}
    (h : parseDateFlexL cs = some dt) : DateValid dt := by
  unfold parseDateFlexL at h
  split at h
  · exact parseDMY_valid h
  · exact parseYMD_valid h

theorem mem_padTo_digit {k : Nat} {cs : List Char} {c : Char}
    (hall : cs.all isDigitC = true) (h : c ∈ padTo k cs) : isDigitC c = true := by
  unfold padTo at h
  rcases List.mem_append.mp h with h | h
  · rw [List.eq_of_mem_replicate h]; decide
  · exact List.all_eq_true.mp hall c h

theorem mem_formatDateL {c : Char} {dt : PyDate} (h : c ∈ formatDateL dt) :
    isDigitC c = true ∨ c = '-' := by
  unfold formatDateL at h
  rcases List.mem_append.mp h with h | h
  · exact Or.inl (mem_padTo_digit (natChars_all_digits _) h)
  · rcases List.mem_cons.mp h with h | h
    · exact Or.inr h
    · rcases List.mem_append.mp h with h | h
      · exact Or.inl (mem_padTo_digit (natChars_all_digits _) h)
      · rcases List.mem_cons.mp h with h | h
        · exact Or.inr h
        · exact Or.inl (mem_padTo_digit (natChars_all_digits _) h)

theorem formatDateL_ne_nil (dt : PyDate) : formatDateL dt ≠ [] := by
  unfold formatDateL
  intro h
  have : (padTo 4 (natChars dt.year)).length +
      ('-' :: (padTo 2 (natChars dt.month) ++ '-' :: padTo 2 (natChars dt.day))).length = 0 := by
    rw [← List.length_append, h]; rfl
  simp at this

theorem formatDateL_no_slash (dt : PyDate) : ('/' : Char) ∉ formatDateL dt := by
  intro h
  rcases mem_formatDateL h with h | h
  · cases h
  · cases h

theorem formatDateL_no_space (dt : PyDate) : ∀ c ∈ formatDateL dt, isPySpace c = false := by
  intro c hc
  rcases mem_formatDateL hc with h | h
  · exact isPySpace_false_of_digit h
  · subst h; decide

theorem pyStripL_formatDateL (dt : PyDate) : pyStripL (formatDateL dt) = formatDateL dt :=
  pyStripL_of_all_not _ (formatDateL_no_space dt)

theorem padTo_ne_nil_of_len {k : Nat} {cs : List Char} (hk : 1 ≤ k) (h : cs.length ≤ k) :
    padTo k cs ≠ [] := by
  intro hnil
  have := padTo_length h
  rw [hnil] at this
  simp at this
  omega

theorem parseYMD_formatDateL {dt : PyDate} (h : DateValid dt) :
    parseYMD (formatDateL dt) = some dt := by
  obtain ⟨h1, h2, h3, h4, h5, h6⟩ := h
  have hylen : (natChars dt.year).length ≤ 4 :=
    natChars_length_le (by omega) (by omega)
  have hmlen : (natChars dt.month).length ≤ 2 :=
    natChars_length_le (by omega) (by omega)
  have hdm31 := daysInMonth_le dt.year dt.month
  have hdlen : (natChars dt.day).length ≤ 2 :=
    natChars_length_le (by omega) (by omega)
  have hym : ∀ c ∈ padTo 4 (natChars dt.year), c ≠ '-' := fun c hc =>
    ne_of_digit_of_not (mem_padTo_digit (natChars_all_digits _) hc) (by decide)
  have hmm : ∀ c ∈ padTo 2 (natChars dt.month), c ≠ '-' := fun c hc =>
    ne_of_digit_of_not (mem_padTo_digit (natChars_all_digits _) hc) (by decide)
  have hdd : ∀ c ∈ padTo 2 (natChars dt.day), c ≠ '-' := fun c hc =>
    ne_of_digit_of_not (mem_padTo_digit (natChars_all_digits _) hc) (by decide)
  unfold formatDateL parseYMD
  rw [splitOnC_append _ (fun hmem => hym '-' hmem rfl),
    splitOnC_append _ (fun hmem => hmm '-' hmem rfl),
    splitOnC_of_not_mem (fun hmem => hdd '-' hmem rfl)]
  show mkDateChecked (padTo 4 (natChars dt.year)) (padTo 2 (natChars dt.month))
      (padTo 2 (natChars dt.day)) = some dt
  rw [mkDateChecked_def, if_pos, if_pos]
  · rw [readNatC_padTo, readNatC_natChars]
    rw [readNatC_padTo, readNatC_natChars]
    rw [readNatC_padTo, readNatC_natChars]
  · simp only [readNatC_padTo, readNatC_natChars, Bool.and_eq_true, decide_eq_true_eq]
    omega
  · simp only [digits1, Bool.and_eq_true, decide_eq_true_eq, beq_iff_eq, ne_eq]
    refine ⟨⟨⟨⟨⟨⟨?_, ?_⟩, ?_⟩, ⟨?_, ?_⟩⟩, ?_⟩, ⟨?_, ?_⟩⟩, ?_⟩
    · exact padTo_ne_nil_of_len (by omega) hylen
    · exact padTo_all_digits (natChars_all_digits _)
    · exact padTo_length hylen
    · exact padTo_ne_nil_of_len (by omega) hmlen
    · exact padTo_all_digits (natChars_all_digits _)
    · rw [padTo_length hmlen]
    · exact padTo_ne_nil_of_len (by omega) hdlen
    · exact padTo_all_digits (natChars_all_digits _)
    · rw [padTo_length hdlen]

theorem parseDateFlexL_formatDateL {dt : PyDate} (h : DateValid dt) :
    parseDateFlexL (formatDateL dt) = some dt := by
  unfold parseDateFlexL
  rw [if_neg, parseYMD_formatDateL h]
  intro hc
  exact formatDateL_no_slash dt (by simpa [List.contains] using hc)

end InvoiceBot

namespace InvoiceBot

/-! ## Lemmas: floats -/

theorem takeWhile_all (p : Char → Bool) (l : List Char) (h : ∀ c ∈ l, p c = true) :
    l.takeWhile p = l := by
  induction l with
  | nil => rfl
  | cons c cs ih =>
    simp only [List.takeWhile_cons, h c (by simp), if_true]
    rw [ih (fun x hx => h x (by simp [hx]))]

theorem dropWhile_all (p : Char → Bool) (l : List Char) (h : ∀ c ∈ l, p c = true) :
    l.dropWhile p = [] := by
  induction l with
  | nil => rfl
  | cons c cs ih =>
    simp only [List.dropWhile_cons, h c (by simp), if_true]
    exact ih (fun x hx => h x (by simp [hx]))

theorem decValue_den_dvd (sn e : Int) : (decValue sn e).den ∣ 10 ^ (-e).toNat := by
  unfold decValue
  split
  case isTrue h =>
    rw [Rat.mkRat_one, Rat.den_intCast]
    exact one_dvd _
  case isFalse h =>
    have : ((mkRat sn (10 ^ (-e).toNat)).den : ℤ) ∣ ((10 ^ (-e).toNat : ℕ) : ℤ) := by
      rw [Rat.mkRat_eq_divInt]
      exact_mod_cast Rat.den_dvd sn ((10 ^ (-e).toNat : ℕ) : ℤ)
    exact_mod_cast this

theorem decValue_neg_nat (sn : Int) {L : Nat} (h : 1 ≤ L) :
    decValue sn (0 - (L : Int)) = mkRat sn (10 ^ L) := by
  unfold decValue
  rw [if_neg (by omega), show (-(0 - (L : Int))).toNat = L by omega]

theorem floatFinish_shape (neg : Bool) (ip fp : List Char) (eOpt : Option Int) :
    floatFinish neg ip fp eOpt = none ∨
      ∃ sn e, floatFinish neg ip fp eOpt = some (decValue sn e) := by
  cases eOpt with
  | none => exact Or.inl rfl
  | some e => exact Or.inr ⟨_, _, rfl⟩

theorem floatFinish_some {n : Bool} {i f : List Char} {X : Option Int} {q : ℚ}
    (h : floatFinish n i f X = some q) : ∃ sn e, q = decValue sn e := by
  cases X with
  | none => cases h
  | some e => exact ⟨_, _, (Option.some.inj h).symm⟩

theorem pyFloatOfChars_shape {cs : List Char} {q : ℚ} (h : pyFloatOfChars cs = some q) :
    ∃ sn e, q = decValue sn e := by
  simp only [pyFloatOfChars] at h
  repeat' split at h
  all_goals try cases h
  all_goals try exact floatFinish_some h
  all_goals exact ⟨_, _, rfl⟩

theorem findScaleAux_some_dvd {d : Nat} :
    ∀ {fuel k j : Nat}, findScaleAux d k fuel = some j → d ∣ 10 ^ j := by
  intro fuel
  induction fuel with
  | zero => intro k j h; cases h
  | succ fuel ih =>
    intro k j h
    rw [findScaleAux] at h
    split at h
    case isTrue hc =>
      injection h with h
      subst h
      exact Nat.dvd_of_mod_eq_zero (by simpa using hc)
    case isFalse hc => exact ih h

theorem findScaleAux_isSome {d j : Nat} (hdvd : d ∣ 10 ^ j) :
    ∀ fuel k, k ≤ j → j < k + fuel → (findScaleAux d k fuel).isSome = true := by
  intro fuel
  induction fuel with
  | zero => intro k h1 h2; omega
  | succ fuel ih =>
    intro k h1 h2
    rw [findScaleAux]
    split
    · rfl
    case isFalse hc =>
      have hkj : k ≠ j := by
        intro hkj
        subst hkj
        exact hc (by simpa using Nat.mod_eq_zero_of_dvd hdvd)
      exact ih (k + 1) (by omega) (by omega)

theorem decScaleDen_some_dvd {d k : Nat} (h : decScaleDen d = some k) : d ∣ 10 ^ k :=
  findScaleAux_some_dvd h

theorem decScaleDen_isSome_of_dvd {d N : Nat} (hd : 0 < d) (h : d ∣ 10 ^ N) :
    (decScaleDen d).isSome = true := by
  have h25 : d ∣ 2 ^ N * 5 ^ N := by
    rwa [show (10 : ℕ) = 2 * 5 from rfl, mul_pow] at h
  obtain ⟨d2, d5, h2, h5, hd25⟩ := Nat.dvd_mul.mp h25
  obtain ⟨i, hiN, rfl⟩ := (Nat.dvd_prime_pow Nat.prime_two).mp h2
  obtain ⟨j, hjN, rfl⟩ := (Nat.dvd_prime_pow Nat.prime_five).mp h5
  subst hd25
  have hi2 : i < 2 ^ i := Nat.lt_two_pow i
  have hi2' : 2 ^ i ≤ 2 ^ i * 5 ^ j := Nat.le_mul_of_pos_right _ (pow_pos (by norm_num) j)
  have hj2 : j < 2 ^ j := Nat.lt_two_pow j
  have hj5 : 2 ^ j ≤ 5 ^ j := Nat.pow_le_pow_left (by norm_num) j
  have hj5' : 5 ^ j ≤ 2 ^ i * 5 ^ j := Nat.le_mul_of_pos_left _ (pow_pos (by norm_num) i)
  have hdvdM : 2 ^ i * 5 ^ j ∣ 10 ^ max i j := by
    rw [show (10 : ℕ) = 2 * 5 from rfl, mul_pow]
    exact mul_dvd_mul (pow_dvd_pow 2 (le_max_left i j)) (pow_dvd_pow 5 (le_max_right i j))
  exact findScaleAux_isSome hdvdM (2 ^ i * 5 ^ j + 1) 0 (by omega) (by omega)

theorem pyFloatOfChars_den_dvd {cs : List Char} {q : ℚ}
    (h : pyFloatOfChars cs = some q) : ∃ N, q.den ∣ 10 ^ N := by
  obtain ⟨sn, e, rfl⟩ := pyFloatOfChars_shape h
  exact ⟨(-e).toNat, decValue_den_dvd sn e⟩

end InvoiceBot

namespace InvoiceBot

/-! ## Lemmas: parsing a decimal string, and the `str`/`float` round trip -/

theorem beq_head_false {c d : Char} (h : c ≠ d) :
    ((some c == some d) : Bool) = false := by
  simp [h]

theorem pyFloatOfChars_decimal (neg : Bool) (I F : List Char)
    (hI : ∀ c ∈ I, isDigitC c = true) (hIne : I ≠ [])
    (hF : ∀ c ∈ F, isDigitC c = true) :
    pyFloatOfChars ((if neg then ['-'] else []) ++ (I ++ '.' :: F)) =
      some (decValue
        (if neg then -((readNatC I * 10 ^ F.length + readNatC F : Nat) : Int)
         else ((readNatC I * 10 ^ F.length + readNatC F : Nat) : Int))
        (0 - (F.length : Int))) := by
  obtain ⟨c0, I', rfl⟩ : ∃ c0 I', I = c0 :: I' := by
    cases I with
    | nil => exact absurd rfl hIne
    | cons a b => exact ⟨a, b, rfl⟩
  have hc0 : isDigitC c0 = true := hI c0 (by simp)
  have hmem : ∀ c ∈ (if neg then ['-'] else []) ++ ((c0 :: I') ++ '.' :: F),
      isPySpace c = false := by
    intro c hc
    rcases List.mem_append.mp hc with hc | hc
    · cases neg with
      | true =>
        simp only [if_true] at hc
        rw [List.mem_singleton.mp hc]
        decide
      | false => simp at hc
    · rcases List.mem_append.mp hc with hc | hc
      · exact isPySpace_false_of_digit (hI c hc)
      · rcases List.mem_cons.mp hc with rfl | hc
        · decide
        · exact isPySpace_false_of_digit (hF c hc)
  have hstrip := pyStripL_of_all_not _ hmem
  have hip : (((c0 :: I') ++ '.' :: F).takeWhile isDigitC) = c0 :: I' :=
    takeWhile_append_all _ _ _ (fun c hc => hI c hc) (by intro c hc; injection hc with hc; subst hc; decide)
  have hr1 : (((c0 :: I') ++ '.' :: F).dropWhile isDigitC) = '.' :: F :=
    dropWhile_append_all _ _ _ (fun c hc => hI c hc) (by intro c hc; injection hc with hc; subst hc; decide)
  have hfp : F.takeWhile isDigitC = F := takeWhile_all _ _ hF
  have hr2 : F.dropWhile isDigitC = [] := dropWhile_all _ _ hF
  cases neg with
  | true =>
    simp only [if_true, List.singleton_append] at hstrip ⊢
    simp only [pyFloatOfChars, hstrip, List.head?_cons, List.tail_cons, hip, hr1, hfp, hr2,
      show ((some '-' == some '+') : Bool) = false from rfl,
      show ((some '-' == some '-') : Bool) = true from rfl, Bool.false_or, if_true,
      show ((some '.' == some '.') : Bool) = true from rfl,
      show ((c0 :: I' : List Char) == []) = false from rfl, Bool.false_and,
      Bool.false_eq_true, if_false,
      show (([] : List Char) == []) = true from rfl]
    rfl
  | false =>
    simp only [Bool.false_eq_true, if_false, List.nil_append] at hstrip ⊢
    have hplus : ((((c0 :: I') ++ '.' :: F).head? == some '+') : Bool) = false := by
      simp only [List.cons_append, List.head?_cons]
      exact beq_head_false (ne_of_digit_of_not hc0 (by decide))
    have hminus : ((((c0 :: I') ++ '.' :: F).head? == some '-') : Bool) = false := by
      simp only [List.cons_append, List.head?_cons]
      exact beq_head_false (ne_of_digit_of_not hc0 (by decide))
    simp only [pyFloatOfChars, hstrip, hplus, hminus, Bool.false_or, Bool.false_eq_true,
      if_false, hip, hr1, List.head?_cons, List.tail_cons,
      show ((some '.' == some '.') : Bool) = true from rfl, if_true, hfp, hr2,
      show ((c0 :: I' : List Char) == []) = false from rfl, Bool.false_and,
      show (([] : List Char) == []) = true from rfl]
    rfl

end InvoiceBot
namespace InvoiceBot

theorem qChars_eq {q : ℚ} {k : Nat} (h : decScaleDen q.den = some k) :
    qChars q =
      (if q.num < 0 then ['-'] else []) ++
        (natChars (q.num.natAbs * (10 ^ k / q.den) / 10 ^ k) ++
          '.' :: (if k = 0 then ['0']
            else padTo k (natChars (q.num.natAbs * (10 ^ k / q.den) % 10 ^ k)))) := by
  unfold qChars
  rw [h]
  simp only [List.append_assoc]

theorem qChars_none {q : ℚ} (h : decScaleDen q.den = none) : qChars q = [] := by
  unfold qChars
  rw [h]

theorem mem_qChars {c : Char} {q : ℚ} (h : c ∈ qChars q) :
    isDigitC c = true ∨ c = '-' ∨ c = '.' := by
  rcases hs : decScaleDen q.den with - | k
  · rw [qChars_none hs] at h
    simp at h
  · rw [qChars_eq hs] at h
    rcases List.mem_append.mp h with h | h
    · split at h
      · rw [List.mem_singleton.mp h]
        exact Or.inr (Or.inl rfl)
      · simp at h
    · rcases List.mem_append.mp h with h | h
      · exact Or.inl (List.all_eq_true.mp (natChars_all_digits _) c h)
      · rcases List.mem_cons.mp h with rfl | h
        · exact Or.inr (Or.inr rfl)
        · split at h
          · rw [List.mem_singleton.mp h]
            exact Or.inl (by decide)
          · exact Or.inl (mem_padTo_digit (natChars_all_digits _) h)

theorem pyFloatOfChars_qChars {q : ℚ} {k : Nat} (h : decScaleDen q.den = some k) :
    pyFloatOfChars (qChars q) = some q := by
  have hdvd : q.den ∣ 10 ^ k := decScaleDen_some_dvd h
  have hden0 : q.den ≠ 0 := q.den_nz
  have hcancel : ((10 ^ k / q.den : ℕ) : ℤ) * (q.den : ℤ) = ((10 : ℤ) ^ k) := by
    exact_mod_cast congrArg (Nat.cast (R := ℤ)) (Nat.div_mul_cancel hdvd)
  set m : Nat := q.num.natAbs * (10 ^ k / q.den) with hm
  have hmz : (m : ℤ) = (q.num.natAbs : ℤ) * ((10 ^ k / q.den : ℕ) : ℤ) := by
    rw [hm]; push_cast; ring
  have hmden : (m : ℤ) * (q.den : ℤ) = (q.num.natAbs : ℤ) * 10 ^ k := by
    rw [hmz, mul_assoc, hcancel]
  have hkey : ∀ (L : Nat) (sn : ℤ), 1 ≤ L → sn * (q.den : ℤ) = q.num * 10 ^ L →
      decValue sn (0 - (L : Int)) = q := by
    intro L sn hL hsden
    rw [decValue_neg_nat _ hL, Rat.mkRat_eq_divInt]
    conv_rhs => rw [← Rat.num_divInt_den q]
    rw [Rat.divInt_eq_iff (by positivity) (by exact_mod_cast hden0)]
    exact_mod_cast hsden
  rw [qChars_eq h]
  by_cases hk : k = 0
  · subst hk
    have hden1 : q.den = 1 := Nat.dvd_one.mp (by simpa using hdvd)
    have hm' : m = q.num.natAbs := by
      rw [hm, hden1]
      simp
    have hdig : ∀ c ∈ natChars (m / 10 ^ 0), isDigitC c = true :=
      fun c hc => List.all_eq_true.mp (natChars_all_digits _) c hc
    have hF0 : ∀ c ∈ (['0'] : List Char), isDigitC c = true := by
      intro c hc
      rw [List.mem_singleton.mp hc]
      decide
    rw [if_pos rfl]
    by_cases hneg : q.num < 0
    · rw [if_pos hneg]
      have hd := pyFloatOfChars_decimal true (natChars (m / 10 ^ 0)) ['0']
        hdig (natChars_ne_nil _) hF0
      simp only [if_true] at hd
      rw [hd]
      congr 1
      refine hkey 1 _ (by omega) ?_
      have habs : ((q.num.natAbs : ℕ) : ℤ) = -q.num := Int.ofNat_natAbs_of_nonpos (le_of_lt hneg)
      rw [show readNatC ['0'] = 0 from rfl, show (['0'] : List Char).length = 1 from rfl,
        readNatC_natChars]
      simp only [pow_zero, Nat.div_one, add_zero, hm', hden1, Nat.cast_one, mul_one]
      push_cast
      rw [abs_of_neg hneg]
      try ring
    · rw [if_neg hneg]
      have hd := pyFloatOfChars_decimal false (natChars (m / 10 ^ 0)) ['0']
        hdig (natChars_ne_nil _) hF0
      simp only [Bool.false_eq_true, if_false] at hd
      rw [hd]
      congr 1
      refine hkey 1 _ (by omega) ?_
      have habs : ((q.num.natAbs : ℕ) : ℤ) = q.num := Int.natAbs_of_nonneg (by omega)
      rw [show readNatC ['0'] = 0 from rfl, show (['0'] : List Char).length = 1 from rfl,
        readNatC_natChars]
      simp only [pow_zero, Nat.div_one, add_zero, hm', hden1, Nat.cast_one, mul_one]
      push_cast
      rw [abs_of_nonneg (by omega : (0:ℤ) ≤ q.num)]
      try ring
  · -- k ≥ 1
    have hk1 : 1 ≤ k := by omega
    have hmodlt : m % 10 ^ k < 10 ^ k := Nat.mod_lt _ (pow_pos (by norm_num) k)
    have hFlen : (padTo k (natChars (m % 10 ^ k))).length = k :=
      padTo_length (natChars_length_le hmodlt hk1)
    have hFread : readNatC (padTo k (natChars (m % 10 ^ k))) = m % 10 ^ k := by
      rw [readNatC_padTo, readNatC_natChars]
    have hdig : ∀ c ∈ natChars (m / 10 ^ k), isDigitC c = true :=
      fun c hc => List.all_eq_true.mp (natChars_all_digits _) c hc
    have hFdig : ∀ c ∈ padTo k (natChars (m % 10 ^ k)), isDigitC c = true :=
      fun c hc => mem_padTo_digit (natChars_all_digits _) hc
    have hN : readNatC (natChars (m / 10 ^ k)) * 10 ^ (padTo k (natChars (m % 10 ^ k))).length
        + readNatC (padTo k (natChars (m % 10 ^ k))) = m := by
      rw [readNatC_natChars, hFlen, hFread, Nat.div_add_mod']
    rw [if_neg hk]
    by_cases hneg : q.num < 0
    · rw [if_pos hneg]
      have hd := pyFloatOfChars_decimal true (natChars (m / 10 ^ k))
        (padTo k (natChars (m % 10 ^ k))) hdig (natChars_ne_nil _) hFdig
      simp only [if_true] at hd
      rw [hd, hN, hFlen]
      congr 1
      refine hkey k _ hk1 ?_
      have habs : ((q.num.natAbs : ℕ) : ℤ) = -q.num := Int.ofNat_natAbs_of_nonpos (le_of_lt hneg)
      rw [neg_mul, hmden, habs]
      try push_cast
      try ring
    · rw [if_neg hneg]
      have hd := pyFloatOfChars_decimal false (natChars (m / 10 ^ k))
        (padTo k (natChars (m % 10 ^ k))) hdig (natChars_ne_nil _) hFdig
      simp only [Bool.false_eq_true, if_false] at hd
      rw [hd, hN, hFlen]
      congr 1
      refine hkey k _ hk1 ?_
      have habs : ((q.num.natAbs : ℕ) : ℤ) = q.num := Int.natAbs_of_nonneg (by omega)
      rw [hmden, habs]
      try push_cast
      try ring

end InvoiceBot
namespace InvoiceBot

theorem pyFloat_reparse {cs : List Char} {q : ℚ} (h : pyFloatOfChars cs = some q) :
    pyFloatOfChars (qChars q) = some q := by
  obtain ⟨N, hdvd⟩ := pyFloatOfChars_den_dvd h
  obtain ⟨k, hk⟩ := Option.isSome_iff_exists.mp (decScaleDen_isSome_of_dvd q.den_pos hdvd)
  exact pyFloatOfChars_qChars hk

theorem not_mem_qChars {c : Char} (q : ℚ) (h1 : isDigitC c = false) (h2 : c ≠ '-')
    (h3 : c ≠ '.') : c ∉ qChars q := by
  intro hm
  rcases mem_qChars hm with h | h | h
  · rw [h1] at h; cases h
  · exact h2 h
  · exact h3 h

theorem amountCleanStr_num (q : ℚ) : amountCleanStr (Val.num q) = ⟨qChars q⟩ := by
  have h1 : pyReplace (⟨qChars q⟩ : String) "," "." = ⟨qChars q⟩ :=
    pyReplace_of_head_not_mem _ _ (show ("," : String).data.head? = some ',' from rfl)
      (not_mem_qChars q (by decide) (by decide) (by decide))
  have h2 : pyReplace (⟨qChars q⟩ : String) "EUR" "" = ⟨qChars q⟩ :=
    pyReplace_of_head_not_mem _ _ (show ("EUR" : String).data.head? = some 'E' from rfl)
      (not_mem_qChars q (by decide) (by decide) (by decide))
  have h3 : pyReplace (⟨qChars q⟩ : String) " " "" = ⟨qChars q⟩ :=
    pyReplace_of_head_not_mem _ _ (show (" " : String).data.head? = some ' ' from rfl)
      (not_mem_qChars q (by decide) (by decide) (by decide))
  show pyReplace (pyReplace (pyReplace (⟨qChars q⟩ : String) "," ".") "EUR" "") " " "" = _
  rw [h1, h2, h3]

theorem pyStrip_format (dt : PyDate) :
    pyStrip (⟨formatDateL dt⟩ : String) = ⟨formatDateL dt⟩ := by
  unfold pyStrip
  rw [show (⟨formatDateL dt⟩ : String).data = formatDateL dt from rfl, pyStripL_formatDateL]

theorem format_ne_empty (dt : PyDate) : (⟨formatDateL dt⟩ : String) ≠ "" := by
  intro hh
  apply formatDateL_ne_nil dt
  have := congrArg String.data hh
  simpa using this

end InvoiceBot

namespace InvoiceBot

/-! ## Lemmas: `cleanField` case analysis -/

theorem cleanField_null (k : String) : cleanField k Val.null = Val.null := by
  simp only [cleanField]
  exact ite_self _

theorem cleanField_num {k : String} (ha : pyStartsWith k "amount_" = false) (q : ℚ) :
    cleanField k (Val.num q) = Val.num q := by
  simp only [cleanField, ha, Bool.false_eq_true, if_false]

theorem cleanField_amount {k : String} (ha : pyStartsWith k "amount_" = true) {v : Val}
    (hv : v ≠ Val.null) :
    cleanField k v =
      match pyFloat (amountCleanStr v) with
      | some q => Val.num q
      | none => Val.null := by
  cases v with
  | null => exact absurd rfl hv
  | str s => simp only [cleanField, ha, if_true]
  | num q => simp only [cleanField, ha, if_true]

theorem cleanField_amount_num {k : String} (ha : pyStartsWith k "amount_" = true) (q : ℚ) :
    cleanField k (Val.num q) =
      match decScaleDen q.den with
      | some _ => Val.num q
      | none => Val.null := by
  rw [cleanField_amount ha (by simp)]
  rcases hs : decScaleDen q.den with - | k'
  · rw [show pyFloat (amountCleanStr (Val.num q)) = none from ?_]
    rw [amountCleanStr_num, show pyFloat (⟨qChars q⟩ : String) = pyFloatOfChars (qChars q) from rfl,
      qChars_none hs]
    rfl
  · rw [show pyFloat (amountCleanStr (Val.num q)) = some q from ?_]
    rw [amountCleanStr_num]
    exact pyFloatOfChars_qChars hs

theorem cleanField_other {k : String} (hd : isDateKey k = false) (hv : k ≠ "vat_percent")
    (ha : pyStartsWith k "amount_" = false) (s : String) :
    cleanField k (Val.str s) = if pyStrip s = "" then Val.null else Val.str s := by
  simp only [cleanField, hd, hv, ha, Bool.false_eq_true, and_false, false_and, if_false]

theorem cleanField_date {k : String} (hd : isDateKey k = true) (hv : k ≠ "vat_percent")
    (ha : pyStartsWith k "amount_" = false) (s : String) :
    cleanField k (Val.str s) =
      match parseDateFlexL (pyStripL s.data) with
      | some d => Val.str ⟨formatDateL d⟩
      | none => Val.null := by
  by_cases hs : s = ""
  · subst hs
    simp only [cleanField, hd, hv, ha, Bool.false_eq_true, and_false, false_and, if_false,
      ne_eq, not_true_eq_false, false_and, if_false]
    rfl
  · simp only [cleanField, hd, hv, ha, Bool.false_eq_true, and_false, false_and, if_false,
      ne_eq, hs, not_false_eq_true, true_and, and_true, if_true]

theorem cleanField_vat (s : String) :
    cleanField "vat_percent" (Val.str s) =
      match pyFloat (pyReplace (pyReplace s "%" "") "," ".") with
      | some q => Val.num q
      | none => Val.null := by
  by_cases hs : s = ""
  · subst hs
    decide
  · simp only [cleanField, show isDateKey "vat_percent" = false by decide,
      show pyStartsWith "vat_percent" "amount_" = false by decide,
      Bool.false_eq_true, and_false, false_and, if_false, ne_eq, hs, not_false_eq_true,
      and_true, true_and, if_true]

/-- Idempotence of the per-field normalizer, for every key and value. -/
theorem cleanField_idem (k : String) (v : Val) :
    cleanField k (cleanField k v) = cleanField k v := by
  by_cases ha : pyStartsWith k "amount_" = true
  · cases v with
    | null => rw [cleanField_null, cleanField_null]
    | str s =>
      have hw := cleanField_amount (v := Val.str s) ha (by simp)
      rw [hw]
      rcases hp : pyFloat (amountCleanStr (Val.str s)) with - | q
      · exact cleanField_null k
      · have h2 := cleanField_amount_num ha q
        obtain ⟨k', hk'⟩ := Option.isSome_iff_exists.mp
          (decScaleDen_isSome_of_dvd q.den_pos (pyFloatOfChars_den_dvd hp).choose_spec)
        show cleanField k (Val.num q) = Val.num q
        rw [h2, hk']
    | num q =>
      have hw := cleanField_amount_num ha q
      rw [hw]
      rcases hs : decScaleDen q.den with - | k'
      · exact cleanField_null k
      · have h2 := cleanField_amount_num ha q
        show cleanField k (Val.num q) = Val.num q
        rw [h2, hs]
  · have ha' : pyStartsWith k "amount_" = false := by
      cases hx : pyStartsWith k "amount_"
      · rfl
      · exact absurd hx ha
    cases v with
    | null => rw [cleanField_null, cleanField_null]
    | num q => rw [cleanField_num ha', cleanField_num ha']
    | str s =>
      by_cases hvp : k = "vat_percent"
      · subst hvp
        have hw := cleanField_vat s
        rw [hw]
        rcases hp : pyFloat (pyReplace (pyReplace s "%" "") "," ".") with - | q
        · exact cleanField_null _
        · exact cleanField_num (by decide) q
      · by_cases hd : isDateKey k = true
        · have hw := cleanField_date hd hvp ha' s
          rw [hw]
          rcases hp : parseDateFlexL (pyStripL s.data) with - | dt
          · exact cleanField_null k
          · have h2 := cleanField_date hd hvp ha' (⟨formatDateL dt⟩ : String)
            show cleanField k (Val.str ⟨formatDateL dt⟩) = Val.str ⟨formatDateL dt⟩
            rw [h2, show ((⟨formatDateL dt⟩ : String)).data = formatDateL dt from rfl,
              pyStripL_formatDateL, parseDateFlexL_formatDateL (parseDateFlexL_valid hp)]
        · have hd' : isDateKey k = false := by
            cases hx : isDateKey k
            · rfl
            · exact absurd hx hd
          have hw := cleanField_other hd' hvp ha' s
          rw [hw]
          by_cases hs : pyStrip s = ""
          · rw [if_pos hs, cleanField_null]
          · rw [if_neg hs]
            have h2 := cleanField_other hd' hvp ha' s
            rw [h2, if_neg hs]

/-- Idempotence of `clean_invoice_data` on whole records. -/
theorem clean_invoice_data_idem_aux (data : PyDict) :
    clean_invoice_data (clean_invoice_data data) = clean_invoice_data data := by
  unfold clean_invoice_data
  rw [List.map_map]
  apply List.map_congr_left
  intro kv _
  show (kv.1, cleanField kv.1 (cleanField kv.1 kv.2)) = (kv.1, cleanField kv.1 kv.2)
  rw [cleanField_idem]

end InvoiceBot

namespace InvoiceBot

/-! ## Lemmas: records and the store -/

theorem hasSubL_prefix (a b : List Char) : hasSubL (a ++ b) a = true := by
  unfold hasSubL
  rw [List.any_eq_true]
  refine ⟨0, List.mem_range.mpr (by omega), ?_⟩
  simp only [List.drop_zero]
  rw [beq_iff_eq]
  exact List.take_left a b

theorem strHasSub_self_append (a sfx : String) : strHasSub (a ++ sfx) a = true := by
  unfold strHasSub
  rw [String.data_append]
  exact hasSubL_prefix _ _

theorem isDupErr_dupMsg (sfx : String) : isDupErr ⟨[dupSig ++ sfx]⟩ = true := by
  unfold isDupErr
  simp only [List.isEmpty_cons, Bool.not_false, List.headD_cons, Bool.true_and]
  exact strHasSub_self_append _ _

theorem getField_cons (kv : String × Val) (rest : PyDict) (k : String) :
    getField (kv :: rest) k = if kv.1 = k then some kv.2 else getField rest k := by
  unfold getField
  by_cases h : kv.1 = k
  · rw [List.find?_cons_of_pos _ (by simp [h]), if_pos h]
    rfl
  · rw [List.find?_cons_of_neg _ (by simp [h]), if_neg h]

theorem getField_clean (d : PyDict) (k : String) :
    getField (clean_invoice_data d) k = (getField d k).map (cleanField k) := by
  induction d with
  | nil => rfl
  | cons kv rest ih =>
    show getField ((kv.1, cleanField kv.1 kv.2) :: clean_invoice_data rest) k = _
    rw [getField_cons, getField_cons]
    by_cases h : kv.1 = k
    · rw [if_pos h, if_pos h, h]
      rfl
    · rw [if_neg h, if_neg h, ih]

theorem storeInsert_ok_of_fresh {store : List PyDict} {r : PyDict} {n : String}
    (hr : getField r "invoice_number" = some (Val.str n))
    (hs : ∀ row ∈ store, getField row "invoice_number" ≠ some (Val.str n)) :
    storeInsert store r = .ok (store ++ [r]) := by
  unfold storeInsert
  rw [hr]
  have hc : (store.any fun row => getField row "invoice_number" == some (Val.str n)) = false := by
    cases hx : store.any fun row => getField row "invoice_number" == some (Val.str n) with
    | false => rfl
    | true =>
      obtain ⟨row, hrow, hbeq⟩ := List.any_eq_true.mp hx
      exact absurd (beq_iff_eq.mp hbeq) (hs row hrow)
  simp only [hc, Bool.false_eq_true, if_false]

theorem storeInsert_err_of_dup {store : List PyDict} {r : PyDict} {n : String}
    (hr : getField r "invoice_number" = some (Val.str n)) (row : PyDict)
    (hrow : row ∈ store) (hgot : getField row "invoice_number" = some (Val.str n)) :
    storeInsert store r = .error ⟨[dupSig ++ " \"invoices_invoice_number_key\""]⟩ := by
  unfold storeInsert
  rw [hr]
  have hc : (store.any fun row => getField row "invoice_number" == some (Val.str n)) = true :=
    List.any_eq_true.mpr ⟨row, hrow, by rw [hgot]; exact beq_self_eq_true _⟩
  simp only [hc, if_true]

theorem storeInsert_ok_dest {store : List PyDict} {r : PyDict} {s2 : List PyDict}
    (h : storeInsert store r = .ok s2) : s2 = store ++ [r] := by
  unfold storeInsert at h
  repeat' split at h
  all_goals try cases h
  all_goals try (injection h with h2; exact h2.symm)
  all_goals rfl

theorem map_fix_iff {α : Type} (f : α → α) (l : List α) :
    l.map f = l ↔ ∀ a ∈ l, f a = a := by
  induction l with
  | nil => simp
  | cons a t ih =>
    constructor
    · intro h
      injection h with h1 h2
      intro x hx
      rcases List.mem_cons.mp hx with rfl | hx
      · exact h1
      · exact ih.mp h2 x hx
    · intro h
      rw [List.map_cons, h a (by simp), ih.mpr (fun x hx => h x (by simp [hx]))]

theorem mem_setField {r : PyDict} {k : String} {v : Val} {kv : String × Val}
    (h : kv ∈ setField r k v) : kv = (k, v) ∨ kv ∈ r := by
  unfold setField at h
  split at h
  · obtain ⟨kv0, hkv0, heq⟩ := List.mem_map.mp h
    by_cases hk : (kv0.1 == k) = true
    · rw [if_pos hk] at heq
      exact Or.inl heq.symm
    · rw [if_neg hk] at heq
      exact Or.inr (heq ▸ hkv0)
  · rcases List.mem_append.mp h with h | h
    · exact Or.inr h
    · left
      simpa using List.mem_singleton.mp h

theorem clean_attachFields {x : PyDict} {url name : String}
    (hx : clean_invoice_data x = x) (hu : pyStrip url ≠ "") (hn : pyStrip name ≠ "") :
    clean_invoice_data (attachFields x url name) = attachFields x url name := by
  unfold clean_invoice_data
  rw [map_fix_iff]
  intro kv hkv
  rcases mem_setField hkv with h | h
  · subst h
    show ((("original_file_name" : String), cleanField "original_file_name" (Val.str name)) = _)
    rw [cleanField_other (by decide) (by decide) (by decide), if_neg hn]
  · rcases mem_setField h with h2 | h2
    · subst h2
      show ((("file_url" : String), cleanField "file_url" (Val.str url)) = _)
      rw [cleanField_other (by decide) (by decide) (by decide), if_neg hu]
    · exact (map_fix_iff _ x).mp hx kv h2

theorem cleanField_invoice_number {n : String} (hn : pyStrip n ≠ "") :
    cleanField "invoice_number" (Val.str n) = Val.str n := by
  rw [cleanField_other (by decide) (by decide) (by decide), if_neg hn]

end InvoiceBot

namespace InvoiceBot

/-! ## Claim theorems -/

/-- C1: Normalizer idempotence: for every provisional record (a mapping from
field names to string, number or null values), applying `clean_invoice_data`
twice yields the same record as applying it once. -/
theorem C1_normalizer_idempotent (data : PyDict) :
    clean_invoice_data (clean_invoice_data data) = clean_invoice_data data :=
  clean_invoice_data_idem_aux data

/-- C3: Date coercion: for each of the three date fields (the keys containing
`date`, `issued` or `period`), a string value is parsed as `DD/MM/YYYY` when
it contains a slash and as `YYYY-MM-DD` otherwise (`parseDateFlexL`), then
reformatted to canonical `YYYY-MM-DD`; on any parse failure the field
silently becomes null.  Concretely `"31/12/2024"` becomes `"2024-12-31"`,
`"2024-12-31"` is unchanged, `"not-a-date"` becomes null and `""` becomes
null. -/
theorem C3_date_coercion :
    (∀ s : String,
      cleanField "date_issued" (Val.str s) =
        (match parseDateFlexL (pyStripL s.data) with
         | some d => Val.str ⟨formatDateL d⟩
         | none => Val.null) ∧
      cleanField "period_start" (Val.str s) =
        (match parseDateFlexL (pyStripL s.data) with
         | some d => Val.str ⟨formatDateL d⟩
         | none => Val.null) ∧
      cleanField "period_end" (Val.str s) =
        (match parseDateFlexL (pyStripL s.data) with
         | some d => Val.str ⟨formatDateL d⟩
         | none => Val.null)) ∧
    clean_invoice_data [("date_issued", Val.str "31/12/2024")] =
      [("date_issued", Val.str "2024-12-31")] ∧
    clean_invoice_data [("date_issued", Val.str "2024-12-31")] =
      [("date_issued", Val.str "2024-12-31")] ∧
    clean_invoice_data [("date_issued", Val.str "not-a-date")] =
      [("date_issued", Val.null)] ∧
    clean_invoice_data [("date_issued", Val.str "")] = [("date_issued", Val.null)] := by
  refine ⟨fun s => ⟨?_, ?_, ?_⟩, by decide, by decide, by decide, by decide⟩
  · exact cleanField_date (by decide) (by decide) (by decide) s
  · exact cleanField_date (by decide) (by decide) (by decide) s
  · exact cleanField_date (by decide) (by decide) (by decide) s

/-- C4: Numeric coercion: `vat_percent` string values have `%` stripped and
commas converted to dots and are parsed as floats; `amount_net`,
`amount_vat`, `amount_total` values have `EUR` and spaces stripped and
commas converted to dots and are parsed as floats; any parse failure yields
null.  Concretely `"19%"` yields `19.0`, `"19,5 %"` yields `19.5`,
`"1234,56 EUR"` yields `1234.56` and `"abc"` yields null. -/
theorem C4_numeric_coercion :
    (∀ s : String,
      cleanField "vat_percent" (Val.str s) =
        (match pyFloat (pyReplace (pyReplace s "%" "") "," ".") with
         | some q => Val.num q
         | none => Val.null)) ∧
    (∀ s : String,
      cleanField "amount_net" (Val.str s) =
        (match pyFloat (amountCleanStr (Val.str s)) with
         | some q => Val.num q
         | none => Val.null) ∧
      cleanField "amount_vat" (Val.str s) =
        (match pyFloat (amountCleanStr (Val.str s)) with
         | some q => Val.num q
         | none => Val.null) ∧
      cleanField "amount_total" (Val.str s) =
        (match pyFloat (amountCleanStr (Val.str s)) with
         | some q => Val.num q
         | none => Val.null)) ∧
    clean_invoice_data [("vat_percent", Val.str "19%")] =
      [("vat_percent", Val.num 19)] ∧
    clean_invoice_data [("vat_percent", Val.str "19,5 %")] =
      [("vat_percent", Val.num 19.5)] ∧
    clean_invoice_data [("amount_total", Val.str "1234,56 EUR")] =
      [("amount_total", Val.num 1234.56)] ∧
    clean_invoice_data [("amount_total", Val.str "abc")] =
      [("amount_total", Val.null)] := by
  have h195 : (19.5 : ℚ) = mkRat 39 2 := by
    rw [Rat.mkRat_eq_divInt, Rat.divInt_eq_div]
    norm_num
  have h123456 : (1234.56 : ℚ) = mkRat 30864 25 := by
    rw [Rat.mkRat_eq_divInt, Rat.divInt_eq_div]
    norm_num
  refine ⟨fun s => cleanField_vat s,
    fun s => ⟨cleanField_amount (by decide) (by simp),
      cleanField_amount (by decide) (by simp),
      cleanField_amount (by decide) (by simp)⟩,
    by decide, ?_, ?_, by decide⟩
  · rw [h195]
    decide
  · rw [h123456]
    decide

/-- C5: Normalizer totality and purity: `clean_invoice_data` is a total Lean
function (so it never raises) that returns, for every input record —
malformed dates, percent strings and currency-annotated amounts included —
a record with exactly the input's fields; unparseable values degrade to
null, as the concrete malformed record shows. -/
theorem C5_normalizer_total :
    (∀ data : PyDict, (clean_invoice_data data).map Prod.fst = data.map Prod.fst) ∧
    clean_invoice_data
        [("invoice_number", Val.str "A-1"), ("date_issued", Val.str "garbage"),
         ("vat_percent", Val.str "x%"), ("amount_net", Val.str "EUR"),
         ("description", Val.null)] =
      [("invoice_number", Val.str "A-1"), ("date_issued", Val.null),
       ("vat_percent", Val.null), ("amount_net", Val.null),
       ("description", Val.null)] := by
  refine ⟨fun data => ?_, by decide⟩
  unfold clean_invoice_data
  rw [List.map_map]
  apply List.map_congr_left
  intro a _
  rfl

end InvoiceBot

namespace InvoiceBot

theorem head?_append_some {l1 l2 : List Char} {c : Char} (h : l1.head? = some c) :
    (l1 ++ l2).head? = some c := by
  cases l1 with
  | nil => cases h
  | cons a t => simpa using h

theorem errMsg_ne_dupMsg (x : String) :
    ("Ошибка записи в базу: " ++ x) ≠ "Такой инвойс ест уже в базе." := by
  intro h
  have h1 : ("Ошибка записи в базу: " ++ x).data.head? = some 'О' := by
    rw [String.data_append]
    exact head?_append_some (by decide)
  rw [h] at h1
  exact absurd h1 (by decide)

/-- C2: Uniqueness and failure classification at persistence: with the record
store modelled from the spec (uniqueness constraint on `invoice_number`,
duplicate failures carrying the postgres duplicate-key signature), two
inserts of records with the same fresh invoice number succeed then fail with
a duplicate-key error; `handle_pdf` classifies an insert failure as the
user-facing duplicate reply exactly when the failure carries the signature
(`isDupErr`), otherwise surfaces the underlying cause; a failed insert
leaves the store unchanged and is not retried. -/
theorem C2_uniqueness_and_classification :
    (∀ (store : List PyDict) (d1 d2 : PyDict) (n : String),
      getField d1 "invoice_number" = some (Val.str n) →
      getField d2 "invoice_number" = some (Val.str n) →
      pyStrip n ≠ "" →
      (∀ row ∈ store, getField row "invoice_number" ≠ some (Val.str n)) →
      ∃ store2, insert_invoice store d1 = .ok store2 ∧
        ∃ e, insert_invoice store2 d2 = .error e ∧ isDupErr e = true) ∧
    (∀ e : DbError,
      classifyInsertError e = .textMsg "Такой инвойс ест уже в базе." ↔ isDupErr e = true) ∧
    (∀ e : DbError, isDupErr e = false →
      classifyInsertError e = .textMsg ("Ошибка записи в базу: " ++ dbErrStr e)) ∧
    (∀ (store : List PyDict) (doc : TgDocument) (rec : PyDict) (url : String)
        (e : DbError) (t : String),
      doc.mime_type = "application/pdf" →
      pdf_to_text doc.content = .ok t →
      storeInsert store (clean_invoice_data (attachFields rec url doc.file_name)) = .error e →
      handle_pdf store doc (.ok rec) url = .ok (classifyInsertError e, store)) := by
  refine ⟨?_, ?_, ?_, ?_⟩
  · intro store d1 d2 n h1 h2 hn hfresh
    have hc1 : getField (clean_invoice_data d1) "invoice_number" = some (Val.str n) := by
      rw [getField_clean, h1, Option.map_some', cleanField_invoice_number hn]
    have hc2 : getField (clean_invoice_data d2) "invoice_number" = some (Val.str n) := by
      rw [getField_clean, h2, Option.map_some', cleanField_invoice_number hn]
    refine ⟨store ++ [clean_invoice_data d1], ?_, ?_⟩
    · exact storeInsert_ok_of_fresh hc1 hfresh
    · refine ⟨⟨[dupSig ++ " \"invoices_invoice_number_key\""]⟩, ?_, isDupErr_dupMsg _⟩
      exact storeInsert_err_of_dup hc2 (clean_invoice_data d1) (by simp) hc1
  · intro e
    constructor
    · intro h
      cases hx : isDupErr e with
      | true => rfl
      | false =>
        unfold classifyInsertError at h
        rw [hx] at h
        simp only [Bool.false_eq_true, if_false] at h
        injection h with h
        exact absurd h (errMsg_ne_dupMsg _)
    · intro h
      unfold classifyInsertError
      rw [h]
      rfl
  · intro e h
    unfold classifyInsertError
    rw [h]
    rfl
  · intro store doc rec url e t hmime hpdf hins
    unfold handle_pdf
    rw [if_neg (by rw [hmime]; simp), hpdf]
    simp only [hins]

/-- C2 witness: on the empty store, inserting `invoice_number = "A-1"` twice
succeeds then fails with an error carrying the duplicate-key signature. -/
theorem C2_witness :
    ∃ store2, insert_invoice [] [("invoice_number", Val.str "A-1")] = .ok store2 ∧
      ∃ e, insert_invoice store2 [("invoice_number", Val.str "A-1")] = .error e ∧
        isDupErr e = true :=
  C2_uniqueness_and_classification.1 [] [("invoice_number", Val.str "A-1")]
    [("invoice_number", Val.str "A-1")] "A-1" (by decide) (by decide) (by decide)
    (by intro row h; cases h)

/-- C6 counterexample: when both parse attempts fail the code raises
`ValueError("LLM did not return valid JSON")` — not the claimed message
"model did not return valid JSON" — and when a brace span exists but is not
valid JSON, the JSON decoder's own exception escapes instead. -/
theorem C6_counterexample :
    extract_response_parse "hello" =
      .error (.valueError "LLM did not return valid JSON") ∧
    "LLM did not return valid JSON" ≠ "model did not return valid JSON" ∧
    extract_response_parse "oops \x7bnot json\x7d" = .error .jsonDecodeError ∧
    (ExtractErr.jsonDecodeError ≠ .valueError "model did not return valid JSON") :=
  ⟨rfl, by decide, rfl, by simp⟩

/-- C6 amended: extraction parses the response directly as JSON; on failure
it falls back to the span from the first opening brace to the last closing
brace (`braceSpan`); if no such span exists it raises
`ValueError("LLM did not return valid JSON")`; if the span exists but fails
to parse, the JSON decoder's error propagates instead.  The concrete
response parses to the invoice-number record via the fallback. -/
theorem C6_amended :
    extract_response_parse "here you go: \x7b\"invoice_number\": \"X\"\x7d thanks" =
      .ok (.obj [("invoice_number", .str "X")]) ∧
    braceSpan "a\x7bb\x7dc\x7dd".data = some "\x7bb\x7dc\x7d".data ∧
    (∀ c : String, ∀ j, jsonLoads c = some j → extract_response_parse c = .ok j) ∧
    (∀ c : String, jsonLoads c = none → braceSpan c.data = none →
      extract_response_parse c = .error (.valueError "LLM did not return valid JSON")) ∧
    (∀ c : String, ∀ sub, jsonLoads c = none → braceSpan c.data = some sub →
      jsonLoadsL sub = none → extract_response_parse c = .error .jsonDecodeError) ∧
    (∀ c : String, ∀ sub j, jsonLoads c = none → braceSpan c.data = some sub →
      jsonLoadsL sub = some j → extract_response_parse c = .ok j) := by
  refine ⟨rfl, rfl, ?_, ?_, ?_, ?_⟩
  · intro c j h
    unfold extract_response_parse
    rw [h]
  · intro c h1 h2
    unfold extract_response_parse
    rw [h1, h2]
  · intro c sub h1 h2 h3
    simp only [extract_response_parse, h1, h2, h3]
  · intro c sub j h1 h2 h3
    simp only [extract_response_parse, h1, h2, h3]

/-- C6 witness: the amended failure clauses at concrete inputs. -/
theorem C6_witness :
    extract_response_parse "hello" =
      .error (.valueError "LLM did not return valid JSON") :=
  C6_amended.2.2.2.1 "hello" rfl rfl

/-- C7: Retrieval: for every store and invoice number the resolver is total
(it answers either "not found" or a document reply and mutates nothing);
zero matching rows give the "not found" negative result; otherwise the first
matching row's `file_url` and `original_file_name` are returned, with
`"<invoice_number>.pdf"` substituted when the stored filename is absent
(the hypothesis that a present filename is null or a nonempty string holds
for every record the pipeline stores, since the normalizer nulls empty
strings). -/
theorem C7_retrieval :
    ∀ (store : List PyDict) (n : String),
      (resolveInvoice store n = .textMsg "Инвойса с таким номером нет." ∨
        ∃ u f, resolveInvoice store n = .documentMsg u f) ∧
      (resolveRows store n = [] →
        resolveInvoice store n = .textMsg "Инвойса с таким номером нет.") ∧
      (∀ row rest, resolveRows store n = row :: rest →
        (∀ v, getField row "original_file_name" = some v →
          v = Val.null ∨ ∃ s, s ≠ "" ∧ v = Val.str s) →
        resolveInvoice store n = .documentMsg (getField row "file_url")
          (match getField row "original_file_name" with
           | some (Val.str s) => Val.str s
           | _ => Val.str (n ++ ".pdf"))) := by
  intro store n
  refine ⟨?_, ?_, ?_⟩
  · unfold resolveInvoice
    cases resolveRows store n with
    | nil => exact Or.inl rfl
    | cons row rest => exact Or.inr ⟨_, _, rfl⟩
  · intro h
    unfold resolveInvoice
    rw [h]
  · intro row rest h hwf
    simp only [resolveInvoice, h]
    rcases hg : getField row "original_file_name" with - | v
    · simp only [hg]
    · rcases hwf v hg with rfl | ⟨s, hs, rfl⟩
      · simp only [hg]
        rfl
      · simp only [hg]
        have hpt : pyTruthy (Val.str s) = true := by
          unfold pyTruthy
          exact bne_iff_ne.mpr hs
        rw [if_pos hpt]

/-- C7 witness: a store holding one record for `"X"` resolves to its stored
URL with the `"X.pdf"` fallback filename; an empty store answers "not
found". -/
theorem C7_witness :
    resolveInvoice [[("invoice_number", Val.str "X"), ("file_url", Val.str "http://u")]] "X" =
      .documentMsg (some (Val.str "http://u")) (Val.str "X.pdf") ∧
    resolveInvoice [] "X" = .textMsg "Инвойса с таким номером нет." := by
  constructor
  · exact (C7_retrieval [[("invoice_number", Val.str "X"), ("file_url", Val.str "http://u")]]
      "X").2.2 [("invoice_number", Val.str "X"), ("file_url", Val.str "http://u")] []
      (by decide) (by intro v h; cases h)
  · exact (C7_retrieval [] "X").2.1 rfl

end InvoiceBot

namespace InvoiceBot

/-- C8 counterexample: `insert_invoice` re-normalizes the record after the
two fields are attached, so an empty attached `original_file_name` is
rewritten to null: the stored record differs from the input record with the
two fields attached, contradicting "no field values rewritten". -/
theorem C8_counterexample :
    clean_invoice_data [("invoice_number", Val.str "A-1")] =
      [("invoice_number", Val.str "A-1")] ∧
    insert_invoice [] (attachFields [("invoice_number", Val.str "A-1")] "http://u" "") =
      .ok [[("invoice_number", Val.str "A-1"), ("file_url", Val.str "http://u"),
        ("original_file_name", Val.null)]] ∧
    [("invoice_number", Val.str "A-1"), ("file_url", Val.str "http://u"),
        ("original_file_name", Val.null)] ≠
      attachFields [("invoice_number", Val.str "A-1")] "http://u" "" := by
  refine ⟨by decide, rfl, by decide⟩

/-- C8 amended: persist attaches `file_url` and `original_file_name` and
issues a single insert of the re-normalized record; for every normalized
input record (a fixed point of `clean_invoice_data`) whose attached strings
are not empty or whitespace-only, re-normalization changes nothing, so on
success the stored record equals the input record with the two fields
attached and no field value is rewritten. -/
theorem C8_store_unchanged :
    ∀ (store : List PyDict) (x : PyDict) (url name : String),
      clean_invoice_data x = x →
      pyStrip url ≠ "" →
      pyStrip name ≠ "" →
      clean_invoice_data (attachFields x url name) = attachFields x url name ∧
      ∀ store2, insert_invoice store (attachFields x url name) = .ok store2 →
        store2 = store ++ [attachFields x url name] := by
  intro store x url name hx hu hn
  have hfix := clean_attachFields hx hu hn
  refine ⟨hfix, ?_⟩
  intro store2 h
  unfold insert_invoice at h
  rw [hfix] at h
  exact storeInsert_ok_dest h

/-- C8 witness: the amended statement at a concrete record, URL and
filename. -/
theorem C8_witness :
    clean_invoice_data (attachFields [("invoice_number", Val.str "A-1")] "http://u" "f.pdf") =
      attachFields [("invoice_number", Val.str "A-1")] "http://u" "f.pdf" :=
  (C8_store_unchanged [] [("invoice_number", Val.str "A-1")] "http://u" "f.pdf"
    (by decide) (by decide) (by decide)).1

/-- C9 counterexample: an error raised during text conversion is not caught
by `handle_pdf` (the source wraps `pdf_to_text` in no `try`): on a document
on which `pdfplumber` raises, the exception escapes and aborts the pipeline
run instead of being treated as empty text. -/
theorem C9_counterexample :
    pdf_to_text (.corrupt "PDFSyntaxError: No /Root object!") =
      .error "PDFSyntaxError: No /Root object!" ∧
    handle_pdf [] ⟨"application/pdf", "a.pdf", .corrupt "PDFSyntaxError: No /Root object!"⟩
        (.ok [("invoice_number", Val.str "A")]) "http://u" =
      .error "PDFSyntaxError: No /Root object!" :=
  ⟨rfl, rfl⟩

/-- C9 amended: pages with no extractable text contribute the empty string
(`extract_text() or ""`), so readable documents always convert; but an error
raised during text conversion is not caught by the caller — it propagates
out of `handle_pdf` and aborts the pipeline run. -/
theorem C9_pdf_to_text :
    (∀ pages : List PdfPage,
      pdf_to_text (.readable pages) =
        .ok (String.intercalate "\n" (pages.map fun p => p.extractedText.getD ""))) ∧
    pdf_to_text (.readable [⟨none⟩, ⟨some "text"⟩, ⟨some ""⟩]) = .ok "\ntext\n" ∧
    (∀ (store : List PyDict) (name msg url : String) (ext : Except ExtractErr PyDict),
      handle_pdf store ⟨"application/pdf", name, .corrupt msg⟩ ext url = .error msg) := by
  refine ⟨fun pages => rfl, rfl, ?_⟩
  intro store name msg url ext
  rfl

/-- C10 counterexample: a text message equal to the menu-button caption
`"загрузить инвойс"`, handled while the awaiting flag is true, re-arms the
flag instead of clearing it, so the claim's "for every text message handled
while the flag is true, the handler sets the flag to false" fails. -/
theorem C10_counterexample :
    (handle_menu [] true "загрузить инвойс").awaiting = true := rfl

/-- C10 amended: for every text message other than the menu-button caption
handled while the awaiting flag is true, the handler clears the flag and
performs the lookup on the stripped text, and the resulting flag is false
for every store — i.e. regardless of whether a matching invoice is found;
the button caption instead (re-)arms the flag. -/
theorem C10_flag_cleared :
    (∀ (store : List PyDict) (text : String), text ≠ uploadBtn →
      (handle_menu store true text).awaiting = false ∧
      (handle_menu store true text).reply = resolveInvoice store (pyStrip text)) ∧
    (∀ (store : List PyDict) (awaiting : Bool),
      (handle_menu store awaiting uploadBtn).awaiting = true) := by
  constructor
  · intro store text h
    unfold handle_menu
    rw [if_neg h]
    exact ⟨rfl, rfl⟩
  · intro store awaiting
    unfold handle_menu
    rw [if_pos rfl]

/-- C10 witness: a non-button message with the flag armed, on the empty
store (no match found): the flag comes back false. -/
theorem C10_witness : (handle_menu [] true "ES-1").awaiting = false :=
  (C10_flag_cleared.1 [] "ES-1" (by decide)).1

end InvoiceBot
